import Mathlib

/-!
Verification of the model-navigator metadata-inference and pipeline logic.

Shallow embedding of:
- `model_navigator/commands/infer_metadata.py` (axis-shape extraction,
  max-batch-size, TensorRT profile derivation, tensor-metadata derivation,
  user dynamic-axes reconciliation);
- `model_navigator/framework_api/pipelines/pipeline.py` (sequential command
  loop threading an output namespace);
- `model_navigator/framework_api/pipelines/pipeline_manager_tf.py`
  (TensorFlow command-list construction).

Python dicts are embedded as association lists in insertion order; observed
axis sizes are `Nat`; metadata shapes are `List Int` with `-1` the dynamic
wildcard; raised exceptions are `Except.error` carrying the message.
-/

namespace MN

/-- Python `min(l)` over a non-empty list of ints (0 on `[]`, where CPython
would raise `ValueError`; all uses below hypothesise non-emptiness). -/
def listMin : List Nat → Nat
  | [] => 0
  | [x] => x
  | x :: y :: xs => if x ≤ listMin (y :: xs) then x else listMin (y :: xs)

/-- Python `max(l)` over a non-empty list of ints (0 on `[]`). -/
def listMax : List Nat → Nat
  | [] => 0
  | [x] => x
  | x :: y :: xs => if x ≤ listMax (y :: xs) then listMax (y :: xs) else x

/-- Insertion into a sorted list (ascending), used to model the sort
performed inside `numpy.median`. -/
def insertSorted (x : Nat) : List Nat → List Nat
  | [] => [x]
  | y :: ys => if x ≤ y then x :: y :: ys else y :: insertSorted x ys

/-- Ascending sort, as performed inside `numpy.median`. -/
def sortAsc (l : List Nat) : List Nat := l.foldr insertSorted []

/-- `int(numpy.median(l))` for a non-empty list of non-negative ints:
sort; odd length takes the middle element; even length averages the two
middle elements (the float average is exact for tensor-shape magnitudes)
and Python `int()` truncates toward zero, i.e. floors the non-negative
average, which is Nat division by 2. -/
def medianInt (l : List Nat) : Nat :=
  let s := sortAsc l
  let n := s.length
  if n % 2 = 1 then s.getD (n / 2) 0
  else (s.getD (n / 2 - 1) 0 + s.getD (n / 2) 0) / 2

/-- Modelled from the spec: the statistical median of the observed sizes
(sort ascending; odd count takes the middle element, even count takes the
exact average of the two middle elements, a rational). Used only to compare
the spec's wording against the code's `int(numpy.median(...))`. -/
def statMedian (l : List Nat) : ℚ :=
  let s := sortAsc l
  let n := s.length
  if n % 2 = 1 then ((s.getD (n / 2) 0 : Nat) : ℚ)
  else (((s.getD (n / 2 - 1) 0 : Nat) : ℚ) + ((s.getD (n / 2) 0 : Nat) : ℚ)) / 2

/-!
`axes_shapes : Dict[str, Dict[int, List[int]]]` maps a tensor name to a
mapping from axis index to the list of observed sizes.  The inner dict is
built as `{ax: [] for ax in range(ndim)}`, so its keys are exactly
`0, ..., ndim-1` in order; it is embedded positionally as
`List (List Nat)`.  The outer dict is an association list in insertion
order.
-/

/-- `_extract_max_batch_size(axes_shapes, batch_dim)`:
`max(list(axes_shapes.values())[0][batch_dim])` when `batch_dim` is not
`None`, else `0`.  Note it reads only the first tensor's bucket. -/
def extractMaxBatchSize (axes_shapes : List (String × List (List Nat)))
    (batch_dim : Option Nat) : Nat :=
  match batch_dim with
  | some k => listMax (((axes_shapes.headD ("", [])).2).getD k [])
  | none => 0

/-- The inner loop of `_get_trt_profile_from_axes_shapes`: for each axis
`ax` (dict key, i.e. position) with observed sizes `shapes`, the triple
`(1, int(np.median(shapes)), max(shapes))` when `ax == batch_dim`
(`# min bs = 1`), else `(min(shapes), int(np.median(shapes)), max(shapes))`.
The index argument carries the axis position of the list head. -/
def minMaxOptAux (batch_dim : Option Nat) : Nat → List (List Nat) → List (Nat × Nat × Nat)
  | _, [] => []
  | ax, shapes :: rest =>
    (if some ax = batch_dim then (1, medianInt shapes, listMax shapes)
     else (listMin shapes, medianInt shapes, listMax shapes)) :: minMaxOptAux batch_dim (ax + 1) rest

/-- The `ModelNavigatorUserInputError` message raised for a tensor with no
axes (Python concatenates the three adjacent string literals directly). -/
def scalarErrMsg (name : String) : String :=
  "Missing shape information for " ++ name ++ " input from dataloader." ++
  "Scalar values are not supported by Triton Inference Server." ++
  "Wrap it in tuple to add dimension e.g. tensor(3) -> tensor((3,))"

/-- `_get_trt_profile_from_axes_shapes(axes_shapes, batch_dim)`:
for each tensor compute the per-axis `min_max_opt` triples, then
`trt_profile.add(name, *zip(*min_max_opt))`, i.e. store
`(mins, opts, maxs)` under the tensor name; if a tensor has no axes raise
`ModelNavigatorUserInputError`.  `TensorRTProfile` is a dict keyed by the
tensor name (names are distinct), embedded as an association list. -/
def trtProfileFromAxesShapes :
    List (String × List (List Nat)) → Option Nat →
    Except String (List (String × (List Nat × List Nat × List Nat)))
  | [], _ => .ok []
  | (name, axes) :: rest, batch_dim =>
    let mmo := minMaxOptAux batch_dim 0 axes
    if mmo.isEmpty then .error (scalarErrMsg name)
    else
      match trtProfileFromAxesShapes rest batch_dim with
      | .error e => .error e
      | .ok tail =>
        .ok ((name, (mmo.map fun t => t.1, mmo.map fun t => t.2.1, mmo.map fun t => t.2.2)) :: tail)

/-- The inner loop of `_get_metadata_from_axes_shapes`: per-axis shape
entry `-1` when `ax == batch_dim or min(shapes) != max(shapes)`, else
`shapes[0]`.  The index argument carries the axis position of the head. -/
def metadataShapeAux (batch_dim : Option Nat) : Nat → List (List Nat) → List Int
  | _, [] => []
  | ax, shapes :: rest =>
    (if some ax = batch_dim ∨ listMin shapes ≠ listMax shapes then (-1 : Int)
     else ((shapes.headD 0 : Nat) : Int)) :: metadataShapeAux batch_dim (ax + 1) rest

/-- The derived shape for one tensor in `_get_metadata_from_axes_shapes`. -/
def metadataShape (batch_dim : Option Nat) (axes : List (List Nat)) : List Int :=
  metadataShapeAux batch_dim 0 axes

/-- `TensorSpec(name, shape, dtype)` from `model_navigator/utils/tensor.py`:
a named tensor with a shape (`-1` = dynamic) and a dtype tag. -/
structure TensorSpec where
  name : String
  shape : List Int
  dtype : String
deriving DecidableEq, Repr

/-- `_get_metadata_from_axes_shapes(axes_shapes, batch_dim, dtypes)`:
`metadata.add(name, tuple(tensor_shape), dtypes[name])` per tensor;
`TensorMetadata` is a dict keyed by tensor name, embedded as an
association list in insertion order. -/
def getMetadataFromAxesShapes (axes_shapes : List (String × List (List Nat)))
    (batch_dim : Option Nat) (dtypes : String → String) : List (String × TensorSpec)
  :=
  match axes_shapes with
  | [] => []
  | (name, axes) :: rest =>
    (name, ⟨name, metadataShape batch_dim axes, dtypes name⟩) ::
      getMetadataFromAxesShapes rest batch_dim dtypes

/-! ### Basic lemmas about the list helpers -/

theorem listMin_le_mem : ∀ (l : List Nat), ∀ x ∈ l, listMin l ≤ x := by
  intro l
  induction l with
  | nil => intro x hx; cases hx
  | cons a as ih =>
    intro x hx
    rcases List.mem_cons.mp hx with h | h
    · subst h
      cases as with
      | nil => simp [listMin]
      | cons b bs =>
        show (if x ≤ listMin (b :: bs) then x else listMin (b :: bs)) ≤ x
        split <;> omega
    · cases as with
      | nil => cases h
      | cons b bs =>
        have := ih x h
        show (if a ≤ listMin (b :: bs) then a else listMin (b :: bs)) ≤ x
        split <;> omega

theorem listMin_mem : ∀ (l : List Nat), l ≠ [] → listMin l ∈ l := by
  intro l
  induction l with
  | nil => intro h; exact absurd rfl h
  | cons a as ih =>
    intro _
    cases as with
    | nil => simp [listMin]
    | cons b bs =>
      show (if a ≤ listMin (b :: bs) then a else listMin (b :: bs)) ∈ a :: b :: bs
      split
      · exact List.mem_cons_self _ _
      · exact List.mem_cons_of_mem _ (ih (by simp))

theorem mem_le_listMax : ∀ (l : List Nat), ∀ x ∈ l, x ≤ listMax l := by
  intro l
  induction l with
  | nil => intro x hx; cases hx
  | cons a as ih =>
    intro x hx
    rcases List.mem_cons.mp hx with h | h
    · subst h
      cases as with
      | nil => simp [listMax]
      | cons b bs =>
        show x ≤ (if x ≤ listMax (b :: bs) then listMax (b :: bs) else x)
        split <;> omega
    · cases as with
      | nil => cases h
      | cons b bs =>
        have := ih x h
        show x ≤ (if a ≤ listMax (b :: bs) then listMax (b :: bs) else a)
        split <;> omega

theorem listMax_mem : ∀ (l : List Nat), l ≠ [] → listMax l ∈ l := by
  intro l
  induction l with
  | nil => intro h; exact absurd rfl h
  | cons a as ih =>
    intro _
    cases as with
    | nil => simp [listMax]
    | cons b bs =>
      show (if a ≤ listMax (b :: bs) then listMax (b :: bs) else a) ∈ a :: b :: bs
      split
      · exact List.mem_cons_of_mem _ (ih (by simp))
      · exact List.mem_cons_self _ _

/-- `min(l) = max(l)` exactly when all observed sizes agree. -/
theorem listMin_eq_listMax_iff (l : List Nat) (hne : l ≠ []) :
    listMin l = listMax l ↔ ∀ a ∈ l, ∀ b ∈ l, a = b := by
  constructor
  · intro h a ha b hb
    have h1 := listMin_le_mem l a ha
    have h2 := mem_le_listMax l a ha
    have h3 := listMin_le_mem l b hb
    have h4 := mem_le_listMax l b hb
    omega
  · intro h
    have hmin := listMin_mem l hne
    have hmax := listMax_mem l hne
    exact h _ hmin _ hmax

theorem minMaxOptAux_length (bd : Option Nat) :
    ∀ (i : Nat) (axes : List (List Nat)), (minMaxOptAux bd i axes).length = axes.length := by
  intro i axes
  induction axes generalizing i with
  | nil => rfl
  | cons a as ih => simp [minMaxOptAux, ih]

/-- The axes-shapes of the unit test
`test_extract_max_batch_size_return_correct_value_when_multiple_values_passed`:
one tensor, batch bucket `[5, 999, 1, 3, 7]`. -/
def testAxesShapes : List (String × List (List Nat)) :=
  [("input_0", [[5, 999, 1, 3, 7], [224, 224, 224, 224, 224], [224, 224, 224, 224, 224],
    [3, 3, 3, 3, 3]])]

/-- C9: `_extract_max_batch_size` returns 0 when `batch_dim` is `None`; with
`batch_dim = k` it returns the maximum of the observed sizes in the first
tensor's bucket `k` (an element of the bucket that dominates every observed
size); on the test data with batch bucket `[5, 999, 1, 3, 7]` and
`batch_dim = 0` it returns 999. -/
theorem extract_max_batch_size_correct
    (axes_shapes : List (String × List (List Nat))) (k : Nat)
    (hb : ((axes_shapes.headD ("", [])).2).getD k [] ≠ []) :
    extractMaxBatchSize axes_shapes none = 0 ∧
    extractMaxBatchSize axes_shapes (some k) ∈ ((axes_shapes.headD ("", [])).2).getD k [] ∧
    (∀ x ∈ ((axes_shapes.headD ("", [])).2).getD k [],
      x ≤ extractMaxBatchSize axes_shapes (some k)) ∧
    extractMaxBatchSize testAxesShapes (some 0) = 999 := by
  refine ⟨rfl, ?_, ?_, by decide⟩
  · exact listMax_mem _ hb
  · intro x hx
    exact mem_le_listMax _ x hx

/-- Witness for C9 at the unit-test input. -/
theorem extract_max_batch_size_correct_witness :
    extractMaxBatchSize testAxesShapes none = 0 ∧
    extractMaxBatchSize testAxesShapes (some 0) ∈ [5, 999, 1, 3, 7] ∧
    (∀ x ∈ ([5, 999, 1, 3, 7] : List Nat), x ≤ extractMaxBatchSize testAxesShapes (some 0)) ∧
    extractMaxBatchSize testAxesShapes (some 0) = 999 := by
  have h := extract_max_batch_size_correct testAxesShapes 0 (by decide)
  exact ⟨h.1, h.2.1, h.2.2.1, h.2.2.2⟩

/-- C10: with two or more tensors and `batch_dim = k`,
`_extract_max_batch_size` reads only the first tensor in insertion order
(`list(axes_shapes.values())[0][batch_dim]`): it equals the max of the first
tensor's bucket `k`, and replacing all remaining tensors by anything else
leaves the result unchanged. -/
theorem extract_max_batch_size_first_tensor_only
    (p : String × List (List Nat)) (t t' : List (String × List (List Nat))) (k : Nat)
    (ht : t ≠ []) :
    extractMaxBatchSize (p :: t) (some k) = listMax (p.2.getD k []) ∧
    extractMaxBatchSize (p :: t) (some k) = extractMaxBatchSize (p :: t') (some k) :=
  ⟨rfl, rfl⟩

/-- Witness for C10: a second tensor with a huge batch bucket is ignored. -/
theorem extract_max_batch_size_first_tensor_only_witness :
    extractMaxBatchSize
        (("input_0", [[5, 999, 1, 3, 7]]) :: [("other", [[1000000]])]) (some 0) =
      listMax [5, 999, 1, 3, 7] ∧
    extractMaxBatchSize
        (("input_0", [[5, 999, 1, 3, 7]]) :: [("other", [[1000000]])]) (some 0) =
      extractMaxBatchSize (("input_0", [[5, 999, 1, 3, 7]]) :: []) (some 0) := by
  have h := extract_max_batch_size_first_tensor_only
    ("input_0", [[5, 999, 1, 3, 7]]) [("other", [[1000000]])] [] 0 (by simp)
  exact ⟨h.1, h.2⟩

/-- C6: an `axes_shapes` containing a tensor with zero observed axes (a
scalar) makes `_get_trt_profile_from_axes_shapes` raise the descriptive
`ModelNavigatorUserInputError` (naming a scalar tensor) instead of
returning a profile; the non-emptiness of all observed buckets keeps the
embedding inside the region where Python raises no earlier `ValueError`. -/
theorem trt_profile_scalar_error
    (axes_shapes : List (String × List (List Nat))) (batch_dim : Option Nat) (nm : String)
    (hbuckets : ∀ p ∈ axes_shapes, ∀ b ∈ p.2, b ≠ [])
    (hscalar : (nm, ([] : List (List Nat))) ∈ axes_shapes) :
    ∃ nm', (nm', ([] : List (List Nat))) ∈ axes_shapes ∧
      trtProfileFromAxesShapes axes_shapes batch_dim = .error (scalarErrMsg nm') := by
  induction axes_shapes with
  | nil => cases hscalar
  | cons p rest ih =>
    obtain ⟨name, axes⟩ := p
    by_cases hax : axes = []
    · subst hax
      exact ⟨name, List.mem_cons_self _ _, rfl⟩
    · have hmem : (nm, ([] : List (List Nat))) ∈ rest := by
        rcases List.mem_cons.mp hscalar with h | h
        · exact absurd (congrArg Prod.snd h).symm hax
        · exact h
      have hbuckets' : ∀ p ∈ rest, ∀ b ∈ p.2, b ≠ [] := by
        intro p hp
        exact hbuckets p (List.mem_cons_of_mem _ hp)
      obtain ⟨nm', hnm', herr⟩ := ih hbuckets' hmem
      refine ⟨nm', List.mem_cons_of_mem _ hnm', ?_⟩
      have hne : (minMaxOptAux batch_dim 0 axes).isEmpty = false := by
        cases axes with
        | nil => exact absurd rfl hax
        | cons b bs => rfl
      simp only [trtProfileFromAxesShapes, hne, Bool.false_eq_true, if_false, herr]

/-- Witness for C6: a concrete mapping with a scalar tensor errors out. -/
theorem trt_profile_scalar_error_witness :
    ∃ nm', (nm', ([] : List (List Nat))) ∈ [("ok_tensor", [[2]]), ("scalar_tensor", [])] ∧
      trtProfileFromAxesShapes [("ok_tensor", [[2]]), ("scalar_tensor", [])] none =
        .error (scalarErrMsg nm') :=
  trt_profile_scalar_error [("ok_tensor", [[2]]), ("scalar_tensor", [])] none "scalar_tensor"
    (by intro p hp b hb; fin_cases hp <;> simp_all)
    (by simp)

theorem getD_map {α β : Type} (f : α → β) :
    ∀ (l : List α) (i : Nat) (d : β) (d' : α), i < l.length →
      (l.map f).getD i d = f (l.getD i d') := by
  intro l
  induction l with
  | nil => intro i d d' h; cases h
  | cons a as ih =>
    intro i d d' h
    cases i with
    | zero => rfl
    | succ n => exact ih n d d' (Nat.lt_of_succ_lt_succ h)

theorem minMaxOptAux_getD (bd : Option Nat) :
    ∀ (axes : List (List Nat)) (i ax : Nat), ax < axes.length →
      (minMaxOptAux bd i axes).getD ax (0, 0, 0) =
        (if some (i + ax) = bd then
          (1, medianInt (axes.getD ax []), listMax (axes.getD ax []))
         else
          (listMin (axes.getD ax []), medianInt (axes.getD ax []),
            listMax (axes.getD ax []))) := by
  intro axes
  induction axes with
  | nil => intro i ax h; cases h
  | cons a as ih =>
    intro i ax h
    cases ax with
    | zero => simp [minMaxOptAux]
    | succ n =>
      have hn := ih (i + 1) n (Nat.lt_of_succ_lt_succ h)
      have harith : i + 1 + n = i + (n + 1) := by omega
      rw [harith] at hn
      simpa [minMaxOptAux] using hn

/-- C1 (amended): `_get_trt_profile_from_axes_shapes` succeeds on any
`axes_shapes` whose tensors all have at least one axis (buckets non-empty),
and emits, per tensor and axis, the triple
`(1, int(np.median(observed)), max(observed))` on the batch axis — min is 1
regardless of the observed minimum — and
`(min(observed), int(np.median(observed)), max(observed))` on every other
axis, where `int(np.median(...))` is the statistical median truncated to an
integer (`medianInt`). -/
theorem trt_profile_correct
    (axes_shapes : List (String × List (List Nat))) (batch_dim : Option Nat)
    (hrank : ∀ p ∈ axes_shapes, p.2 ≠ [])
    (hbuckets : ∀ p ∈ axes_shapes, ∀ b ∈ p.2, b ≠ []) :
    ∃ prof, trtProfileFromAxesShapes axes_shapes batch_dim = .ok prof ∧
      prof.length = axes_shapes.length ∧
      ∀ i, i < axes_shapes.length →
        (prof.getD i ("", ([], [], []))).1 = (axes_shapes.getD i ("", [])).1 ∧
        ∀ ax, ax < (axes_shapes.getD i ("", [])).2.length →
          ((prof.getD i ("", ([], [], []))).2.1.getD ax 0 =
            (if some ax = batch_dim then 1
             else listMin ((axes_shapes.getD i ("", [])).2.getD ax []))) ∧
          ((prof.getD i ("", ([], [], []))).2.2.1.getD ax 0 =
            medianInt ((axes_shapes.getD i ("", [])).2.getD ax [])) ∧
          ((prof.getD i ("", ([], [], []))).2.2.2.getD ax 0 =
            listMax ((axes_shapes.getD i ("", [])).2.getD ax [])) := by
  induction axes_shapes with
  | nil => exact ⟨[], rfl, rfl, fun i hi => absurd hi (by simp)⟩
  | cons p rest ih =>
    obtain ⟨name, axes⟩ := p
    have hax : axes ≠ [] := hrank _ (List.mem_cons_self _ _)
    have hrank' : ∀ q ∈ rest, q.2 ≠ [] := fun q hq => hrank q (List.mem_cons_of_mem _ hq)
    have hbuckets' : ∀ q ∈ rest, ∀ b ∈ q.2, b ≠ [] :=
      fun q hq => hbuckets q (List.mem_cons_of_mem _ hq)
    obtain ⟨tail, htail, hlen, hprop⟩ := ih hrank' hbuckets'
    have hne : (minMaxOptAux batch_dim 0 axes).isEmpty = false := by
      cases axes with
      | nil => exact absurd rfl hax
      | cons b bs => rfl
    refine ⟨(name, ((minMaxOptAux batch_dim 0 axes).map fun t => t.1,
        (minMaxOptAux batch_dim 0 axes).map fun t => t.2.1,
        (minMaxOptAux batch_dim 0 axes).map fun t => t.2.2)) :: tail, ?_, ?_, ?_⟩
    · simp only [trtProfileFromAxesShapes, hne, Bool.false_eq_true, if_false, htail]
    · simpa using hlen
    · intro i hi
      cases i with
      | zero =>
        refine ⟨rfl, ?_⟩
        intro ax hax'
        have hmmo : ax < (minMaxOptAux batch_dim 0 axes).length := by
          rw [minMaxOptAux_length]
          simpa using hax'
        have hget := minMaxOptAux_getD batch_dim axes 0 ax (by simpa using hax')
        rw [Nat.zero_add] at hget
        refine ⟨?_, ?_, ?_⟩
        · rw [show ((((name, ((minMaxOptAux batch_dim 0 axes).map fun t => t.1,
              (minMaxOptAux batch_dim 0 axes).map fun t => t.2.1,
              (minMaxOptAux batch_dim 0 axes).map fun t => t.2.2)) :: tail).getD 0
                ("", ([], [], []))).2.1) = (minMaxOptAux batch_dim 0 axes).map fun t => t.1
            from rfl]
          rw [getD_map _ _ _ _ (0, 0, 0) hmmo, hget]
          by_cases hb : some ax = batch_dim <;> simp [hb]
        · rw [show ((((name, ((minMaxOptAux batch_dim 0 axes).map fun t => t.1,
              (minMaxOptAux batch_dim 0 axes).map fun t => t.2.1,
              (minMaxOptAux batch_dim 0 axes).map fun t => t.2.2)) :: tail).getD 0
                ("", ([], [], []))).2.2.1) = (minMaxOptAux batch_dim 0 axes).map fun t => t.2.1
            from rfl]
          rw [getD_map _ _ _ _ (0, 0, 0) hmmo, hget]
          by_cases hb : some ax = batch_dim <;> simp [hb]
        · rw [show ((((name, ((minMaxOptAux batch_dim 0 axes).map fun t => t.1,
              (minMaxOptAux batch_dim 0 axes).map fun t => t.2.1,
              (minMaxOptAux batch_dim 0 axes).map fun t => t.2.2)) :: tail).getD 0
                ("", ([], [], []))).2.2.2) = (minMaxOptAux batch_dim 0 axes).map fun t => t.2.2
            from rfl]
          rw [getD_map _ _ _ _ (0, 0, 0) hmmo, hget]
          by_cases hb : some ax = batch_dim <;> simp [hb]
      | succ n =>
        have hn : n < rest.length := by simpa using hi
        exact hprop n hn

/-- C1 counterexample: on `axes_shapes = {"x": {0: [2, 2], 1: [1, 2]}}` with
`batch_dim = 0`, the code emits `opt = 1` on axis 1 (`int(np.median([1, 2]))`),
but the statistical median of the observed sizes `[1, 2]` is `3/2 ≠ 1`: the
emitted opt is not the statistical median of the observed sizes. -/
theorem trt_profile_counterexample :
    trtProfileFromAxesShapes [("x", [[2, 2], [1, 2]])] (some 0) =
      .ok [("x", ([1, 1], [2, 1], [2, 2]))] ∧
    (1 : ℚ) ≠ statMedian [1, 2] := by
  constructor
  · rfl
  · have : statMedian [1, 2] = 3 / 2 := by
      norm_num [statMedian, sortAsc, insertSorted, List.getD]
    rw [this]
    norm_num

/-- The axes-shapes of the unit test
`test_get_trt_profile_return_correct_shapes_when_axes_shapes_passed`. -/
def testProfileAxesShapes : List (String × List (List Nat)) :=
  [("input_0", [[1, 1, 1, 1, 1], [224, 224, 224, 224, 224], [224, 224, 224, 224, 224],
    [3, 3, 3, 3, 3]])]

/-- Witness for C1 at the unit-test input: the derived profile is
`min = opt = max = (1, 224, 224, 3)`. -/
theorem trt_profile_correct_witness :
    ∃ prof, trtProfileFromAxesShapes testProfileAxesShapes (some 0) = .ok prof ∧
      prof = [("input_0", ([1, 224, 224, 3], [1, 224, 224, 3], [1, 224, 224, 3]))] := by
  obtain ⟨prof, hok, _⟩ := trt_profile_correct testProfileAxesShapes (some 0)
    (by decide) (by decide)
  refine ⟨prof, hok, ?_⟩
  have hconc : trtProfileFromAxesShapes testProfileAxesShapes (some 0) =
      .ok [("input_0", ([1, 224, 224, 3], [1, 224, 224, 3], [1, 224, 224, 3]))] := rfl
  exact Except.ok.inj (hok.symm.trans hconc)

theorem metadataShapeAux_getD (bd : Option Nat) :
    ∀ (axes : List (List Nat)) (i ax : Nat), ax < axes.length →
      (metadataShapeAux bd i axes).getD ax 0 =
        (if some (i + ax) = bd ∨ listMin (axes.getD ax []) ≠ listMax (axes.getD ax [])
         then (-1 : Int) else (((axes.getD ax []).headD 0 : Nat) : Int)) := by
  intro axes
  induction axes with
  | nil => intro i ax h; cases h
  | cons a as ih =>
    intro i ax h
    cases ax with
    | zero => simp [metadataShapeAux]
    | succ n =>
      have hn := ih (i + 1) n (Nat.lt_of_succ_lt_succ h)
      have harith : i + 1 + n = i + (n + 1) := by omega
      rw [harith] at hn
      simpa [metadataShapeAux] using hn

/-- C2: `_get_metadata_from_axes_shapes` returns one `TensorSpec` per tensor
(keyed and named by the tensor, with its dtype), whose shape entry at each
axis is the wildcard `-1` exactly when the axis is the batch axis or the
observed sizes in its bucket vary across samples; a non-batch axis with a
constant observed size is fixed to that constant. -/
theorem metadata_from_axes_shapes_correct
    (axes_shapes : List (String × List (List Nat))) (batch_dim : Option Nat)
    (dtypes : String → String)
    (hbuckets : ∀ p ∈ axes_shapes, ∀ b ∈ p.2, b ≠ []) :
    getMetadataFromAxesShapes axes_shapes batch_dim dtypes =
      axes_shapes.map (fun p => (p.1, ⟨p.1, metadataShape batch_dim p.2, dtypes p.1⟩)) ∧
    ∀ p ∈ axes_shapes, ∀ ax, ax < p.2.length →
      (((metadataShape batch_dim p.2).getD ax 0 = -1) ↔
        (some ax = batch_dim ∨ ∃ a ∈ p.2.getD ax [], ∃ b ∈ p.2.getD ax [], a ≠ b)) ∧
      (∀ c : Nat, some ax ≠ batch_dim → (∀ x ∈ p.2.getD ax [], x = c) →
        (metadataShape batch_dim p.2).getD ax 0 = (c : Int)) := by
  constructor
  · induction axes_shapes with
    | nil => rfl
    | cons p rest ih =>
      have hbuckets' : ∀ q ∈ rest, ∀ b ∈ q.2, b ≠ [] :=
        fun q hq => hbuckets q (List.mem_cons_of_mem _ hq)
      obtain ⟨name, axes⟩ := p
      simp only [getMetadataFromAxesShapes, List.map_cons, List.cons.injEq]
      exact ⟨trivial, ih hbuckets'⟩
  · intro p hp ax hax
    have hbne : p.2.getD ax [] ≠ [] := by
      apply hbuckets p hp
      rw [List.getD_eq_getElem _ _ hax]
      exact List.getElem_mem _
    have hget := metadataShapeAux_getD batch_dim p.2 0 ax hax
    rw [Nat.zero_add] at hget
    have hiff := listMin_eq_listMax_iff (p.2.getD ax []) hbne
    constructor
    · rw [metadataShape, hget]
      constructor
      · intro hm
        by_cases hcond : some ax = batch_dim ∨
            listMin (p.2.getD ax []) ≠ listMax (p.2.getD ax [])
        · rcases hcond with hb | hv
          · exact Or.inl hb
          · refine Or.inr ?_
            by_contra hno
            push_neg at hno
            exact hv (hiff.mpr hno)
        · rw [if_neg hcond] at hm
          omega
      · intro hor
        have hcond : some ax = batch_dim ∨
            listMin (p.2.getD ax []) ≠ listMax (p.2.getD ax []) := by
          rcases hor with hb | ⟨a, ha, b, hb, hab⟩
          · exact Or.inl hb
          · refine Or.inr fun heq => hab ?_
            exact hiff.mp heq a ha b hb
        rw [if_pos hcond]
    · intro c hnb hconst
      have heq : listMin (p.2.getD ax []) = listMax (p.2.getD ax []) :=
        hiff.mpr fun a ha b hb => (hconst a ha).trans (hconst b hb).symm
      rw [metadataShape, hget, if_neg (by
        intro hcond
        rcases hcond with hb | hv
        · exact hnb hb
        · exact hv heq)]
      obtain ⟨x, xs, hx⟩ := List.exists_cons_of_ne_nil hbne
      rw [hx]
      have : x = c := hconst x (by rw [hx]; exact List.mem_cons_self _ _)
      simp [this]

/-- Witness for C2 at the unit-test input
(`test_get_metadata_return_correct_data_from_axes_shapes_when_with_valid_shapes_passed`):
derived shape `(-1, 224, 224, 3)` with dtype float64. -/
theorem metadata_from_axes_shapes_correct_witness :
    getMetadataFromAxesShapes testProfileAxesShapes (some 0) (fun _ => "float64") =
      testProfileAxesShapes.map
        (fun p => (p.1, ⟨p.1, metadataShape (some 0) p.2, (fun _ => "float64") p.1⟩)) ∧
    getMetadataFromAxesShapes testProfileAxesShapes (some 0) (fun _ => "float64") =
      [("input_0", ⟨"input_0", [-1, 224, 224, 3], "float64"⟩)] := by
  have h := metadata_from_axes_shapes_correct testProfileAxesShapes (some 0)
    (fun _ => "float64") (by decide)
  exact ⟨h.1, rfl⟩

/-! ### User dynamic axes (`_update_user_dynamic_axes_inplace`) -/

/-- Association-list lookup in insertion order (Python dict lookup /
`dict.get(name, None)`). -/
def alookup {α : Type} : List (String × α) → String → Option α
  | [], _ => none
  | p :: rest, k => if p.1 = k then some p.2 else alookup rest k

/-- Python dict assignment to an existing key: the value is replaced in
place, insertion order kept. -/
def assocSet {α : Type} (m : List (String × α)) (k : String) (v : α) : List (String × α) :=
  m.map fun p => if p.1 = k then (k, v) else p

/-- List element assignment `shape[ax] = -1` (in-range). -/
def listSet : List Int → Nat → Int → List Int
  | [], _, _ => []
  | _ :: xs, 0, v => v :: xs
  | x :: xs, n + 1, v => x :: listSet xs n v

/-- The update loop `for ax in axes: shape[ax] = -1`; `none` models the
`IndexError` Python raises at the first out-of-range axis. -/
def setAxes : List Int → List Nat → Option (List Int)
  | s, [] => some s
  | s, ax :: rest => if ax < s.length then setAxes (listSet s ax (-1)) rest else none

/-- The verify loop `for ax, d in enumerate(tensor_spec.shape)`: the first
position (at running offset `i`) whose entry is `-1` but was not declared
dynamic. -/
def findOffending (axes : List Nat) : List Int → Nat → Option Nat
  | [], _ => none
  | d :: rest, i =>
    if d = -1 ∧ i ∉ axes then some i else findOffending axes rest (i + 1)

/-- The `ValueError` message of `_update_user_dynamic_axes_inplace`. -/
def dynamicAxisErrMsg (name : String) (ax : Nat) : String :=
  "In tensor `" ++ name ++ "` axis `" ++ toString ax ++
    "` is not set as dynamic axes but is dynamic in the dataloader."

/-- `_update_user_dynamic_axes_inplace(dynamic_axes, input_metadata)`:
process the user's entries in insertion order; a tensor name absent from
the metadata makes the whole function return at once (Python `return`, not
`continue`); otherwise the declared axes of the stored shape are forced to
`-1`, the updated `TensorSpec` is stored under the name, and then the
pre-update shape is verified: a wildcard entry whose axis the user did not
declare raises `ValueError`.  Functional embedding of the in-place update:
the metadata is threaded through; a raised exception is `Except.error`
with its message. -/
def updateUserDynamicAxes :
    List (String × List Nat) → List (String × TensorSpec) →
    Except String (List (String × TensorSpec))
  | [], m => .ok m
  | (name, axes) :: rest, m =>
    match alookup m name with
    | none => .ok m
    | some spec =>
      match setAxes spec.shape axes with
      | none => .error "IndexError"
      | some newShape =>
        match findOffending axes spec.shape 0 with
        | some ax => .error (dynamicAxisErrMsg name ax)
        | none => updateUserDynamicAxes rest (assocSet m name ⟨name, newShape, spec.dtype⟩)

theorem listSet_length : ∀ (s : List Int) (i : Nat) (v : Int),
    (listSet s i v).length = s.length := by
  intro s
  induction s with
  | nil => intro i v; rfl
  | cons x xs ih =>
    intro i v
    cases i with
    | zero => rfl
    | succ n => simp [listSet, ih]

theorem listSet_getD_eq : ∀ (s : List Int) (i : Nat) (v d : Int), i < s.length →
    (listSet s i v).getD i d = v := by
  intro s
  induction s with
  | nil => intro i v d h; cases h
  | cons x xs ih =>
    intro i v d h
    cases i with
    | zero => rfl
    | succ n => exact ih n v d (Nat.lt_of_succ_lt_succ h)

theorem listSet_getD_ne : ∀ (s : List Int) (i j : Nat) (v d : Int), i ≠ j →
    (listSet s i v).getD j d = s.getD j d := by
  intro s
  induction s with
  | nil => intro i j v d _; rfl
  | cons x xs ih =>
    intro i j v d hij
    cases i with
    | zero =>
      cases j with
      | zero => exact absurd rfl hij
      | succ n => rfl
    | succ n =>
      cases j with
      | zero => rfl
      | succ k => exact ih n k v d (fun h => hij (by rw [h]))

theorem listSet_self : ∀ (s : List Int) (i : Nat) (v : Int),
    i < s.length → s.getD i 0 = v → listSet s i v = s := by
  intro s
  induction s with
  | nil => intro i v h; cases h
  | cons x xs ih =>
    intro i v h hv
    cases i with
    | zero => simpa [listSet] using hv.symm
    | succ n =>
      simp only [listSet, List.cons.injEq]
      exact ⟨trivial, ih n v (Nat.lt_of_succ_lt_succ h) hv⟩

theorem setAxes_length : ∀ (axes : List Nat) (s ns : List Int),
    setAxes s axes = some ns → ns.length = s.length := by
  intro axes
  induction axes with
  | nil => intro s ns h; cases h; rfl
  | cons ax rest ih =>
    intro s ns h
    rw [setAxes] at h
    by_cases hb : ax < s.length
    · rw [if_pos hb] at h
      rw [ih _ _ h, listSet_length]
    · rw [if_neg hb] at h
      cases h

theorem setAxes_mem_lt : ∀ (axes : List Nat) (s ns : List Int),
    setAxes s axes = some ns → ∀ ax ∈ axes, ax < s.length := by
  intro axes
  induction axes with
  | nil => intro s ns _ ax hax; cases hax
  | cons a rest ih =>
    intro s ns h ax hax
    rw [setAxes] at h
    by_cases hb : a < s.length
    · rw [if_pos hb] at h
      rcases List.mem_cons.mp hax with h' | h'
      · exact h' ▸ hb
      · have := ih _ _ h ax h'
        rwa [listSet_length] at this
    · rw [if_neg hb] at h
      cases h

theorem setAxes_getD_not_mem : ∀ (axes : List Nat) (s ns : List Int) (i : Nat) (d : Int),
    setAxes s axes = some ns → i ∉ axes → ns.getD i d = s.getD i d := by
  intro axes
  induction axes with
  | nil => intro s ns i d h _; cases h; rfl
  | cons a rest ih =>
    intro s ns i d h hni
    rw [setAxes] at h
    by_cases hb : a < s.length
    · rw [if_pos hb] at h
      have hia : i ∉ rest := fun hmem => hni (List.mem_cons_of_mem _ hmem)
      have hne : a ≠ i := fun he => hni (he ▸ List.mem_cons_self _ _)
      rw [ih _ _ _ _ h hia]
      exact listSet_getD_ne s a i (-1) d hne
    · rw [if_neg hb] at h
      cases h

theorem setAxes_getD_mem : ∀ (axes : List Nat) (s ns : List Int),
    setAxes s axes = some ns → ∀ ax ∈ axes, ns.getD ax 0 = -1 := by
  intro axes
  induction axes with
  | nil => intro s ns _ ax hax; cases hax
  | cons a rest ih =>
    intro s ns h ax hax
    rw [setAxes] at h
    by_cases hb : a < s.length
    · rw [if_pos hb] at h
      rcases List.mem_cons.mp hax with h' | h'
      · subst h'
        by_cases hmem : ax ∈ rest
        · exact ih _ _ h ax hmem
        · have hkeep := setAxes_getD_not_mem rest _ _ ax 0 h hmem
          rw [hkeep]
          exact listSet_getD_eq s ax (-1) 0 hb
      · exact ih _ _ h ax h'
    · rw [if_neg hb] at h
      cases h

theorem setAxes_self : ∀ (axes : List Nat) (s : List Int),
    (∀ ax ∈ axes, ax < s.length ∧ s.getD ax 0 = -1) → setAxes s axes = some s := by
  intro axes
  induction axes with
  | nil => intro s _; rfl
  | cons a rest ih =>
    intro s h
    have ha := h a (List.mem_cons_self _ _)
    rw [setAxes, if_pos ha.1, listSet_self s a (-1) ha.1 ha.2]
    exact ih s fun ax hax => h ax (List.mem_cons_of_mem _ hax)

theorem setAxes_some_of_bounds : ∀ (axes : List Nat) (s : List Int),
    (∀ ax ∈ axes, ax < s.length) → ∃ ns, setAxes s axes = some ns := by
  intro axes
  induction axes with
  | nil => intro s _; exact ⟨s, rfl⟩
  | cons a rest ih =>
    intro s h
    have ha := h a (List.mem_cons_self _ _)
    rw [setAxes, if_pos ha]
    apply ih
    intro ax hax
    rw [listSet_length]
    exact h ax (List.mem_cons_of_mem _ hax)

theorem findOffending_eq_none_iff (axes : List Nat) :
    ∀ (s : List Int) (i : Nat),
      findOffending axes s i = none ↔
        ∀ j, j < s.length → s.getD j 0 = -1 → (i + j) ∈ axes := by
  intro s
  induction s with
  | nil =>
    intro i
    constructor
    · intro _ j hj; cases hj
    · intro _; rfl
  | cons d rest ih =>
    intro i
    rw [findOffending]
    by_cases hc : d = -1 ∧ i ∉ axes
    · rw [if_pos hc]
      constructor
      · intro h; cases h
      · intro h
        have h0 := h 0 (by simp) (by simpa using hc.1)
        rw [Nat.add_zero] at h0
        exact absurd h0 hc.2
    · rw [if_neg hc, ih (i + 1)]
      constructor
      · intro h j hj hd
        cases j with
        | zero =>
          rw [Nat.add_zero]
          by_contra hni
          exact hc ⟨by simpa using hd, hni⟩
        | succ n =>
          have hh := h n (Nat.lt_of_succ_lt_succ hj) (by simpa using hd)
          have harith : i + 1 + n = i + (n + 1) := by omega
          rwa [harith] at hh
      · intro h j hj hd
        have hh := h (j + 1) (Nat.succ_lt_succ hj) (by simpa using hd)
        have harith : i + (j + 1) = i + 1 + j := by omega
        rwa [harith] at hh

theorem findOffending_eq_some (axes : List Nat) :
    ∀ (s : List Int) (i ax : Nat), findOffending axes s i = some ax →
      i ≤ ax ∧ ax - i < s.length ∧ s.getD (ax - i) 0 = -1 ∧ ax ∉ axes := by
  intro s
  induction s with
  | nil => intro i ax h; cases h
  | cons d rest ih =>
    intro i ax h
    rw [findOffending] at h
    by_cases hc : d = -1 ∧ i ∉ axes
    · rw [if_pos hc] at h
      have hia : i = ax := Option.some.inj h
      subst hia
      refine ⟨Nat.le_refl _, by simp, ?_, hc.2⟩
      rw [Nat.sub_self]
      simpa using hc.1
    · rw [if_neg hc] at h
      obtain ⟨h1, h2, h3, h4⟩ := ih (i + 1) ax h
      refine ⟨by omega, ?_, ?_, h4⟩
      · simp only [List.length_cons]
        omega
      · have harith : ax - i = (ax - (i + 1)) + 1 := by omega
        rw [harith]
        simpa using h3

theorem alookup_cons {α : Type} (p : String × α) (rest : List (String × α)) (k : String) :
    alookup (p :: rest) k = if p.1 = k then some p.2 else alookup rest k := rfl

theorem assocSet_cons {α : Type} (p : String × α) (rest : List (String × α))
    (k : String) (v : α) :
    assocSet (p :: rest) k v = (if p.1 = k then (k, v) else p) :: assocSet rest k v := rfl

theorem alookup_mem {α : Type} :
    ∀ (m : List (String × α)) (k : String) (v : α),
      alookup m k = some v → (k, v) ∈ m := by
  intro m
  induction m with
  | nil => intro k v h; cases h
  | cons p rest ih =>
    intro k v h
    rw [alookup_cons] at h
    by_cases hk : p.1 = k
    · rw [if_pos hk] at h
      have hv : p.2 = v := Option.some.inj h
      subst hk
      subst hv
      exact List.mem_cons_self _ _
    · rw [if_neg hk] at h
      exact List.mem_cons_of_mem _ (ih k v h)

theorem alookup_key_mem {α : Type} (m : List (String × α)) (k : String) (v : α)
    (h : alookup m k = some v) : k ∈ m.map Prod.fst :=
  List.mem_map.mpr ⟨(k, v), alookup_mem m k v h, rfl⟩

theorem alookup_assocSet_self {α : Type} :
    ∀ (m : List (String × α)) (k : String) (v : α),
      (alookup m k).isSome → alookup (assocSet m k v) k = some v := by
  intro m
  induction m with
  | nil => intro k v h; simp [alookup] at h
  | cons p rest ih =>
    intro k v h
    rw [assocSet_cons]
    by_cases hk : p.1 = k
    · rw [if_pos hk, alookup_cons, if_pos rfl]
    · rw [if_neg hk, alookup_cons, if_neg hk]
      rw [alookup_cons, if_neg hk] at h
      exact ih k v h

theorem alookup_assocSet_ne {α : Type} :
    ∀ (m : List (String × α)) (k k' : String) (v : α), k ≠ k' →
      alookup (assocSet m k v) k' = alookup m k' := by
  intro m
  induction m with
  | nil => intro k k' v _; rfl
  | cons p rest ih =>
    intro k k' v hne
    rw [assocSet_cons]
    by_cases hk : p.1 = k
    · rw [if_pos hk, alookup_cons, alookup_cons,
        if_neg (show ¬((k, v).1 = k') from hne),
        if_neg (show ¬(p.1 = k') from fun h => hne (hk.symm.trans h))]
      exact ih k k' v hne
    · rw [if_neg hk, alookup_cons, alookup_cons]
      by_cases hk' : p.1 = k'
      · rw [if_pos hk', if_pos hk']
      · rw [if_neg hk', if_neg hk']
        exact ih k k' v hne

theorem assocSet_keys {α : Type} :
    ∀ (m : List (String × α)) (k : String) (v : α),
      (assocSet m k v).map Prod.fst = m.map Prod.fst := by
  intro m
  induction m with
  | nil => intro k v; rfl
  | cons p rest ih =>
    intro k v
    rw [assocSet_cons, List.map_cons, List.map_cons, ih k v]
    by_cases hk : p.1 = k
    · rw [if_pos hk, ← hk]
    · rw [if_neg hk]

theorem assocSet_mem {α : Type} (m : List (String × α)) (k : String) (v : α) :
    ∀ p ∈ assocSet m k v, p ∈ m ∨ p = (k, v) := by
  intro p hp
  obtain ⟨q, hq, hpe⟩ := List.mem_map.mp hp
  by_cases hk : q.1 = k
  · rw [if_pos hk] at hpe
    exact Or.inr hpe.symm
  · rw [if_neg hk] at hpe
    exact Or.inl (hpe ▸ hq)

theorem assocSet_not_mem {α : Type} :
    ∀ (m : List (String × α)) (k : String) (v : α),
      k ∉ m.map Prod.fst → assocSet m k v = m := by
  intro m
  induction m with
  | nil => intro k v _; rfl
  | cons p rest ih =>
    intro k v h
    have h1 : p.1 ≠ k := fun he => h (by simp [← he])
    have h2 : k ∉ rest.map Prod.fst := fun hm => h (by simp [hm])
    rw [assocSet_cons, if_neg h1, ih k v h2]

theorem assocSet_eq_self {α : Type} :
    ∀ (m : List (String × α)) (k : String) (v : α),
      (m.map Prod.fst).Nodup → alookup m k = some v → assocSet m k v = m := by
  intro m
  induction m with
  | nil => intro k v _ h; cases h
  | cons p rest ih =>
    intro k v hnd h
    have hnd2 : (p.1 :: rest.map Prod.fst).Nodup := by
      rw [← List.map_cons]
      exact hnd
    have hnd' := List.nodup_cons.mp hnd2
    rw [alookup_cons] at h
    rw [assocSet_cons]
    by_cases hk : p.1 = k
    · rw [if_pos hk] at h
      have hv : p.2 = v := Option.some.inj h
      have hknotin : k ∉ rest.map Prod.fst := hk ▸ hnd'.1
      rw [if_pos hk, assocSet_not_mem rest k v hknotin]
      subst hk
      subst hv
      rfl
    · rw [if_neg hk] at h
      rw [if_neg hk, ih k v hnd'.2 h]

theorem updateUserDynamicAxes_cons (name : String) (axes : List Nat)
    (rest : List (String × List Nat)) (m : List (String × TensorSpec)) :
    updateUserDynamicAxes ((name, axes) :: rest) m =
      match alookup m name with
      | none => .ok m
      | some spec =>
        match setAxes spec.shape axes with
        | none => .error "IndexError"
        | some newShape =>
          match findOffending axes spec.shape 0 with
          | some ax => .error (dynamicAxisErrMsg name ax)
          | none =>
            updateUserDynamicAxes rest (assocSet m name ⟨name, newShape, spec.dtype⟩) := rfl

theorem updateUserDynamicAxes_untouched :
    ∀ (da : List (String × List Nat)) (m m' : List (String × TensorSpec)) (k : String),
      updateUserDynamicAxes da m = .ok m' → (∀ p ∈ da, p.1 ≠ k) →
      alookup m' k = alookup m k := by
  intro da
  induction da with
  | nil =>
    intro m m' k h _
    injection h with h2
    subst h2
    rfl
  | cons e rest ih =>
    obtain ⟨name, axes⟩ := e
    intro m m' k h hk
    rw [updateUserDynamicAxes_cons] at h
    split at h
    next =>
      injection h with h2
      subst h2
      rfl
    next spec hlook =>
      split at h
      next => exact Except.noConfusion h
      next ns hset =>
        split at h
        next ax hoff => exact Except.noConfusion h
        next hoff =>
          have hk1 : name ≠ k := hk (name, axes) (List.mem_cons_self _ _)
          have hk2 : ∀ p ∈ rest, p.1 ≠ k := fun p hp => hk p (List.mem_cons_of_mem _ hp)
          rw [ih _ _ k h hk2, alookup_assocSet_ne m name k _ hk1]

theorem updateUserDynamicAxes_keys :
    ∀ (da : List (String × List Nat)) (m m' : List (String × TensorSpec)),
      updateUserDynamicAxes da m = .ok m' → m'.map Prod.fst = m.map Prod.fst := by
  intro da
  induction da with
  | nil =>
    intro m m' h
    injection h with h2
    subst h2
    rfl
  | cons e rest ih =>
    obtain ⟨name, axes⟩ := e
    intro m m' h
    rw [updateUserDynamicAxes_cons] at h
    split at h
    next =>
      injection h with h2
      subst h2
      rfl
    next spec hlook =>
      split at h
      next => exact Except.noConfusion h
      next ns hset =>
        split at h
        next ax hoff => exact Except.noConfusion h
        next hoff => rw [ih _ _ h, assocSet_keys]

theorem updateUserDynamicAxes_names :
    ∀ (da : List (String × List Nat)) (m m' : List (String × TensorSpec)),
      updateUserDynamicAxes da m = .ok m' →
      (∀ p ∈ m, (Prod.snd p).name = p.1) → ∀ p ∈ m', (Prod.snd p).name = p.1 := by
  intro da
  induction da with
  | nil =>
    intro m m' h hn
    injection h with h2
    subst h2
    exact hn
  | cons e rest ih =>
    obtain ⟨name, axes⟩ := e
    intro m m' h hn
    rw [updateUserDynamicAxes_cons] at h
    split at h
    next =>
      injection h with h2
      subst h2
      exact hn
    next spec hlook =>
      split at h
      next => exact Except.noConfusion h
      next ns hset =>
        split at h
        next ax hoff => exact Except.noConfusion h
        next hoff =>
          refine ih _ _ h ?_
          intro p hp
          rcases assocSet_mem m name _ p hp with hmem | heq
          · exact hn p hmem
          · rw [heq]

theorem updateUserDynamicAxes_ok_spec :
    ∀ (da : List (String × List Nat)) (m m' : List (String × TensorSpec)),
      updateUserDynamicAxes da m = .ok m' →
      (da.map Prod.fst).Nodup →
      (∀ p ∈ da, (alookup m p.1).isSome) →
      ∀ p ∈ da, ∃ spec, alookup m' p.1 = some spec ∧
        (∀ ax ∈ p.2, ax < spec.shape.length ∧ spec.shape.getD ax 0 = -1) ∧
        (∀ i, spec.shape.getD i 0 = -1 → i ∈ p.2) := by
  intro da
  induction da with
  | nil => intro m m' _ _ _ p hp; cases hp
  | cons e rest ih =>
    obtain ⟨name, axes⟩ := e
    intro m m' h hnd hpres
    simp only [List.map_cons] at hnd
    have hndc := List.nodup_cons.mp hnd
    have hlookup := hpres (name, axes) (List.mem_cons_self _ _)
    obtain ⟨spec, hlook⟩ := Option.isSome_iff_exists.mp hlookup
    rw [updateUserDynamicAxes_cons] at h
    split at h
    next hlooknone =>
      rw [hlook] at hlooknone
      exact Option.noConfusion hlooknone
    next spec' hlook' =>
      have hspec : spec' = spec := by
        rw [hlook] at hlook'
        exact (Option.some.inj hlook').symm
      subst hspec
      split at h
      next => exact Except.noConfusion h
      next ns hset =>
        split at h
        next ax hoff => exact Except.noConfusion h
        next hoff =>
          intro p hp
          rcases List.mem_cons.mp hp with hpe | hpr
          · subst hpe
            have hrestne : ∀ q ∈ rest, q.1 ≠ name := by
              intro q hq he
              exact hndc.1 (he ▸ List.mem_map.mpr ⟨q, hq, rfl⟩)
            have hresteq : alookup m' name =
                alookup (assocSet m name ⟨name, ns, spec'.dtype⟩) name :=
              updateUserDynamicAxes_untouched rest _ m' name h hrestne
            have hself : alookup (assocSet m name ⟨name, ns, spec'.dtype⟩) name =
                some ⟨name, ns, spec'.dtype⟩ :=
              alookup_assocSet_self m name _ (by rw [hlook']; rfl)
            refine ⟨⟨name, ns, spec'.dtype⟩, hresteq.trans hself, ?_, ?_⟩
            · intro ax hax
              have hlt := setAxes_mem_lt axes spec'.shape ns hset ax hax
              constructor
              · show ax < ns.length
                rw [setAxes_length axes spec'.shape ns hset]
                exact hlt
              · exact setAxes_getD_mem axes spec'.shape ns hset ax hax
            · intro i hi
              by_cases hmem : i ∈ axes
              · exact hmem
              · exfalso
                have hkeep := setAxes_getD_not_mem axes spec'.shape ns i 0 hset hmem
                rw [hkeep] at hi
                by_cases hilen : i < spec'.shape.length
                · have hin := (findOffending_eq_none_iff axes spec'.shape 0).mp hoff i hilen hi
                  rw [Nat.zero_add] at hin
                  exact hmem hin
                · rw [List.getD_eq_default] at hi
                  · exact absurd hi (by decide)
                  · omega
          · have hpres' : ∀ q ∈ rest,
                (alookup (assocSet m name ⟨name, ns, spec'.dtype⟩) q.1).isSome := by
              intro q hq
              have hqne : name ≠ q.1 :=
                fun he => hndc.1 (he ▸ List.mem_map.mpr ⟨q, hq, rfl⟩)
              rw [alookup_assocSet_ne m name q.1 _ hqne]
              exact hpres q (List.mem_cons_of_mem _ hq)
            exact ih _ m' h hndc.2 hpres' p hpr

theorem updateUserDynamicAxes_idem :
    ∀ (da : List (String × List Nat)) (m : List (String × TensorSpec)),
      (∀ p ∈ m, (Prod.snd p).name = p.1) →
      (m.map Prod.fst).Nodup →
      (∀ p ∈ da, ∃ spec, alookup m p.1 = some spec ∧
        (∀ ax ∈ p.2, ax < spec.shape.length ∧ spec.shape.getD ax 0 = -1) ∧
        (∀ i, spec.shape.getD i 0 = -1 → i ∈ p.2)) →
      updateUserDynamicAxes da m = .ok m := by
  intro da
  induction da with
  | nil => intro m _ _ _; rfl
  | cons e rest ih =>
    obtain ⟨name, axes⟩ := e
    intro m hnames hnd hall
    obtain ⟨spec, hlook, hprops, hsub⟩ := hall (name, axes) (List.mem_cons_self _ _)
    have hset : setAxes spec.shape axes = some spec.shape := setAxes_self axes spec.shape hprops
    have hoff : findOffending axes spec.shape 0 = none := by
      rw [findOffending_eq_none_iff]
      intro j hj hjd
      rw [Nat.zero_add]
      exact hsub j hjd
    have hname : spec.name = name := hnames (name, spec) (alookup_mem m name spec hlook)
    have hspec_eta : (⟨name, spec.shape, spec.dtype⟩ : TensorSpec) = spec := by
      cases spec
      simp only at hname
      rw [hname]
    rw [updateUserDynamicAxes_cons]
    simp only [hlook, hset, hoff]
    rw [hspec_eta, assocSet_eq_self m name spec hnd hlook]
    exact ih m hnames hnd fun p hp => hall p (List.mem_cons_of_mem _ hp)

/-- C4 (amended): provided every tensor named in `dynamic_axes` is present
in the metadata (looked up by name), the names are distinct (dict keys),
each stored spec is named after its key, and the application returns
without raising, then every axis the user marked dynamic is `-1` in the
resulting metadata, and applying the function a second time succeeds and
returns the same metadata (idempotence). -/
theorem update_user_dynamic_axes_force_and_idem
    (da : List (String × List Nat)) (m m' : List (String × TensorSpec))
    (hnd : (da.map Prod.fst).Nodup)
    (hnm : (m.map Prod.fst).Nodup)
    (hnames : ∀ p ∈ m, (Prod.snd p).name = p.1)
    (hpres : ∀ p ∈ da, (alookup m p.1).isSome)
    (hok : updateUserDynamicAxes da m = .ok m') :
    (∀ p ∈ da, ∃ spec, alookup m' p.1 = some spec ∧
      ∀ ax ∈ p.2, spec.shape.getD ax 0 = -1) ∧
    updateUserDynamicAxes da m' = .ok m' := by
  have hspec := updateUserDynamicAxes_ok_spec da m m' hok hnd hpres
  refine ⟨?_, ?_⟩
  · intro p hp
    obtain ⟨spec, h1, h2, _⟩ := hspec p hp
    exact ⟨spec, h1, fun ax hax => (h2 ax hax).2⟩
  · have hnames' := updateUserDynamicAxes_names da m m' hok hnames
    have hkeys := updateUserDynamicAxes_keys da m m' hok
    have hnm' : (m'.map Prod.fst).Nodup := by
      rw [hkeys]
      exact hnm
    exact updateUserDynamicAxes_idem da m' hnames' hnm' hspec

/-- C4 counterexample: `dynamic_axes = {"a": [0], "b": [0]}` against a
metadata holding only `"b"`: the lookup of `"a"` returns `None` and the
function returns at once (`return`, not `continue`), so the user-declared
dynamic axis 0 of the present tensor `"b"` is left at its fixed size 5 —
not set to `-1` as the claim states. -/
theorem update_user_dynamic_axes_counterexample :
    updateUserDynamicAxes [("a", [0]), ("b", [0])] [("b", ⟨"b", [5], "float32"⟩)] =
      .ok [("b", ⟨"b", [5], "float32"⟩)] ∧
    alookup [("b", (⟨"b", [5], "float32"⟩ : TensorSpec))] "b" = some ⟨"b", [5], "float32"⟩ ∧
    ((5 : Int) ≠ -1) :=
  ⟨rfl, rfl, by decide⟩

/-- Witness for C4: one tensor `"x"` of shape `(2, 3)` with user dynamic
axis 0 — axis 0 becomes `-1` and the update is idempotent. -/
theorem update_user_dynamic_axes_force_and_idem_witness :
    (∀ p ∈ [("x", [(0 : Nat)])],
      ∃ spec, alookup [("x", (⟨"x", [-1, 3], "float32"⟩ : TensorSpec))] p.1 = some spec ∧
        ∀ ax ∈ p.2, spec.shape.getD ax 0 = -1) ∧
    updateUserDynamicAxes [("x", [0])] [("x", ⟨"x", [-1, 3], "float32"⟩)] =
      .ok [("x", ⟨"x", [-1, 3], "float32"⟩)] :=
  update_user_dynamic_axes_force_and_idem [("x", [0])] [("x", ⟨"x", [2, 3], "float32"⟩)]
    [("x", ⟨"x", [-1, 3], "float32"⟩)] (by simp) (by simp) (by decide) (by decide) rfl

/-- C5 (amended): if the user mapping (distinct names, all present in the
metadata, declared axes in range) lists some tensor having an
inferred-dynamic (`-1`) axis that the user did not declare, then
`_update_user_dynamic_axes_inplace` raises a `ValueError` whose message
names an offending tensor and axis (the first one encountered): a tensor
listed with an undeclared wildcard axis. -/
theorem update_user_dynamic_axes_undeclared_raises :
    ∀ (da : List (String × List Nat)) (m : List (String × TensorSpec)),
      (da.map Prod.fst).Nodup →
      (∀ p ∈ da, (alookup m p.1).isSome) →
      (∀ p ∈ da, ∀ spec, alookup m p.1 = some spec → ∀ ax ∈ p.2, ax < spec.shape.length) →
      (∃ p ∈ da, ∃ spec, alookup m p.1 = some spec ∧
        ∃ ax, spec.shape.getD ax 0 = -1 ∧ ax ∉ p.2) →
      ∃ nm axs ax spec, alookup da nm = some axs ∧ alookup m nm = some spec ∧
        spec.shape.getD ax 0 = -1 ∧ ax ∉ axs ∧
        updateUserDynamicAxes da m = .error (dynamicAxisErrMsg nm ax) := by
  intro da
  induction da with
  | nil =>
    intro m _ _ _ hoff
    obtain ⟨p, hp, _⟩ := hoff
    cases hp
  | cons e rest ih =>
    obtain ⟨name, axes⟩ := e
    intro m hnd hpres hbound hoff
    simp only [List.map_cons] at hnd
    have hndc := List.nodup_cons.mp hnd
    obtain ⟨spec, hlook⟩ :=
      Option.isSome_iff_exists.mp (hpres (name, axes) (List.mem_cons_self _ _))
    have hax_bound : ∀ ax ∈ axes, ax < spec.shape.length :=
      hbound (name, axes) (List.mem_cons_self _ _) spec hlook
    obtain ⟨ns, hset⟩ := setAxes_some_of_bounds axes spec.shape hax_bound
    cases hfo : findOffending axes spec.shape 0 with
    | some ax =>
      have hsound := findOffending_eq_some axes spec.shape 0 ax hfo
      refine ⟨name, axes, ax, spec, ?_, hlook, ?_, hsound.2.2.2, ?_⟩
      · rw [alookup_cons, if_pos rfl]
      · simpa using hsound.2.2.1
      · rw [updateUserDynamicAxes_cons]
        simp only [hlook, hset, hfo]
    | none =>
      have hrestne : ∀ q ∈ rest, q.1 ≠ name :=
        fun q hq he => hndc.1 (he ▸ List.mem_map.mpr ⟨q, hq, rfl⟩)
      have hoffrest : ∃ p ∈ rest, ∃ spec', alookup m p.1 = some spec' ∧
          ∃ ax, spec'.shape.getD ax 0 = -1 ∧ ax ∉ p.2 := by
        obtain ⟨p, hp, spec', hlook', ax, hdyn, hnotin⟩ := hoff
        rcases List.mem_cons.mp hp with hpe | hpr
        · exfalso
          subst hpe
          have hse : spec' = spec := Option.some.inj (hlook'.symm.trans hlook)
          subst hse
          have hlen : ax < spec'.shape.length := by
            by_contra hge
            rw [List.getD_eq_default] at hdyn
            · exact absurd hdyn (by decide)
            · omega
          have hin := (findOffending_eq_none_iff axes spec'.shape 0).mp hfo ax hlen hdyn
          rw [Nat.zero_add] at hin
          exact hnotin hin
        · exact ⟨p, hpr, spec', hlook', ax, hdyn, hnotin⟩
      have hpres' : ∀ p ∈ rest,
          (alookup (assocSet m name ⟨name, ns, spec.dtype⟩) p.1).isSome := by
        intro q hq
        rw [alookup_assocSet_ne m name q.1 _ fun he => (hrestne q hq) he.symm]
        exact hpres q (List.mem_cons_of_mem _ hq)
      have hbound' : ∀ p ∈ rest, ∀ spec',
          alookup (assocSet m name ⟨name, ns, spec.dtype⟩) p.1 = some spec' →
          ∀ ax ∈ p.2, ax < spec'.shape.length := by
        intro q hq spec' hlook' ax hax
        rw [alookup_assocSet_ne m name q.1 _ fun he => (hrestne q hq) he.symm] at hlook'
        exact hbound q (List.mem_cons_of_mem _ hq) spec' hlook' ax hax
      have hoff' : ∃ p ∈ rest, ∃ spec',
          alookup (assocSet m name ⟨name, ns, spec.dtype⟩) p.1 = some spec' ∧
          ∃ ax, spec'.shape.getD ax 0 = -1 ∧ ax ∉ p.2 := by
        obtain ⟨q, hq, spec', hl, ax, h1, h2⟩ := hoffrest
        refine ⟨q, hq, spec', ?_, ax, h1, h2⟩
        rw [alookup_assocSet_ne m name q.1 _ fun he => (hrestne q hq) he.symm]
        exact hl
      obtain ⟨nm, axs, ax, spec', h1, h2, h3, h4, h5⟩ := ih _ hndc.2 hpres' hbound' hoff'
      have hnmne : nm ≠ name := fun he => hndc.1 (he ▸ alookup_key_mem rest nm axs h1)
      refine ⟨nm, axs, ax, spec', ?_, ?_, h3, h4, ?_⟩
      · rw [alookup_cons, if_neg fun he => hnmne he.symm]
        exact h1
      · rw [alookup_assocSet_ne m name nm ⟨name, ns, spec.dtype⟩
          fun he => hnmne he.symm] at h2
        exact h2
      · rw [updateUserDynamicAxes_cons]
        simp only [hlook, hset, hfo]
        exact h5

/-- C5 counterexample: metadata whose tensor `"x"` has an inferred-dynamic
axis 0, with an empty user `dynamic_axes` mapping: the verify loop only
inspects tensors the user listed, so the contradiction raises no error —
the call returns the metadata unchanged even though axis 0 of `"x"` is
dynamic and undeclared. -/
theorem update_user_dynamic_axes_no_raise_counterexample :
    updateUserDynamicAxes [] [("x", ⟨"x", [-1], "float32"⟩)] =
      .ok [("x", ⟨"x", [-1], "float32"⟩)] ∧
    (⟨"x", [-1], "float32"⟩ : TensorSpec).shape.getD 0 0 = -1 ∧
    (0 : Nat) ∉ ([] : List Nat) :=
  ⟨rfl, rfl, by simp⟩

/-- Witness for C5: tensor `"x"` of inferred shape `(5, -1)` with the user
declaring only axis 0 dynamic — the call raises the `ValueError` naming
`"x"` and axis 1. -/
theorem update_user_dynamic_axes_undeclared_raises_witness :
    ∃ nm axs ax spec,
      alookup [("x", [(0 : Nat)])] nm = some axs ∧
      alookup [("x", (⟨"x", [5, -1], "float32"⟩ : TensorSpec))] nm = some spec ∧
      spec.shape.getD ax 0 = -1 ∧ ax ∉ axs ∧
      updateUserDynamicAxes [("x", [0])] [("x", ⟨"x", [5, -1], "float32"⟩)] =
        .error (dynamicAxisErrMsg nm ax) := by
  apply update_user_dynamic_axes_undeclared_raises
  · simp
  · decide
  · intro p hp spec hspec ax hax
    have hp' : p = ("x", [0]) := by simpa using hp
    subst hp'
    rw [alookup_cons, if_pos rfl] at hspec
    have hs := Option.some.inj hspec
    subst hs
    have hax' : ax = 0 := by simpa using hax
    subst hax'
    decide
  · refine ⟨("x", [0]), by simp, ⟨"x", [5, -1], "float32"⟩, ?_, 1, rfl, by simp⟩
    rw [alookup_cons, if_pos rfl]

/-! ### Axis-shape extraction (`_extract_axes_shapes`)

A dataloader sample, after `extract_sample`, maps each input name to the
observed shape of its tensor; the dataloader is a finite stream of such
samples with a reported `len(dataloader)`.
-/

/-- `axes_shapes = {name: {ax: [] for ax in range(ndim)} for name, ndim in
zip(input_names, input_ndims)}`. -/
def initAxes (names : List String) (ndims : List Nat) : List (String × List (List Nat)) :=
  (names.zip ndims).map fun p => (p.1, List.replicate p.2 [])

/-- `for k, dim in enumerate(tensor.shape): axes_shapes[name][k].append(dim)`:
append each observed dim into the positional bucket. -/
def zipAppend : List (List Nat) → List Nat → List (List Nat)
  | bs, [] => bs
  | [], _ :: _ => []
  | b :: bs, d :: ds => (b ++ [d]) :: zipAppend bs ds

/-- The per-sample body: for each declared tensor, append the dims of the
sample's tensor of that name into its buckets. -/
def appendSample (axes : List (String × List (List Nat)))
    (sample : List (String × List Nat)) : List (String × List (List Nat)) :=
  axes.map fun p =>
    match alookup sample p.1 with
    | none => p
    | some shape => (p.1, zipAppend p.2 shape)

/-- The `for i, sample in enumerate(dataloader)` loop: stop processing at
`i >= num_samples` with a logged warning (`True` flag) after consuming the
sample; returns the buckets, the warned flag, and the value `i + 1` that
the trailing `assert i + 1 >= len(dataloader)` would read (the number of
iterations entered). -/
def extractLoop (numSamples : Nat) :
    List (List (String × List Nat)) → Nat → List (String × List (List Nat)) →
    List (String × List (List Nat)) × Bool × Nat
  | [], i, axes => (axes, false, i)
  | s :: rest, i, axes =>
    if numSamples ≤ i then (axes, true, i + 1)
    else extractLoop numSamples rest (i + 1) (appendSample axes s)

/-- `_extract_axes_shapes(dataloader, input_names, input_ndims, num_samples,
framework, check_len)`: run the loop, then `assert i + 1 >=
len(dataloader)` when `check_len`; an empty dataloader leaves the loop
variable `i` unbound, so the assert line raises `NameError`.  Returns the
buckets and whether the over-length warning was logged. -/
def extractAxesShapes (samples : List (List (String × List Nat)))
    (reportedLen : Nat) (names : List String) (ndims : List Nat)
    (numSamples : Nat) (check_len : Bool) :
    Except String (List (String × List (List Nat)) × Bool) :=
  let r := extractLoop numSamples samples 0 (initAxes names ndims)
  if check_len then
    if samples.isEmpty then .error "NameError: name i is not defined"
    else if reportedLen ≤ r.2.2 then .ok (r.1, r.2.1)
    else .error "AssertionError: dataloader length mismatch"
  else .ok (r.1, r.2.1)

theorem extractLoop_trunc (numSamples : Nat) :
    ∀ (samples : List (List (String × List Nat))) (k : Nat)
      (axes : List (String × List (List Nat))),
      k ≤ numSamples → numSamples < samples.length + k →
      extractLoop numSamples samples k axes =
        ((samples.take (numSamples - k)).foldl appendSample axes, true, numSamples + 1) := by
  intro samples
  induction samples with
  | nil =>
    intro k axes h1 h2
    simp only [List.length_nil, Nat.zero_add] at h2
    exact absurd h1 (by omega)
  | cons s rest ih =>
    intro k axes h1 h2
    by_cases hk : numSamples ≤ k
    · have hkeq : k = numSamples := Nat.le_antisymm h1 hk
      subst hkeq
      rw [extractLoop, if_pos (Nat.le_refl _)]
      simp [Nat.sub_self]
    · rw [extractLoop, if_neg hk]
      have h1' : k + 1 ≤ numSamples := by omega
      have h2' : numSamples < rest.length + (k + 1) := by
        simp only [List.length_cons] at h2
        omega
      rw [ih (k + 1) (appendSample axes s) h1' h2']
      have htake : (s :: rest).take (numSamples - k) =
          s :: rest.take (numSamples - (k + 1)) := by
        have harith : numSamples - k = (numSamples - (k + 1)) + 1 := by omega
        rw [harith, List.take_succ_cons]
      rw [htake, List.foldl_cons]

theorem extractLoop_all (numSamples : Nat) :
    ∀ (samples : List (List (String × List Nat))) (k : Nat)
      (axes : List (String × List (List Nat))),
      samples.length + k ≤ numSamples →
      extractLoop numSamples samples k axes =
        (samples.foldl appendSample axes, false, k + samples.length) := by
  intro samples
  induction samples with
  | nil => intro k axes _; simp [extractLoop]
  | cons s rest ih =>
    intro k axes h
    have hk : ¬ numSamples ≤ k := by
      simp only [List.length_cons] at h
      omega
    rw [extractLoop, if_neg hk, ih (k + 1) _ (by simp only [List.length_cons] at h; omega)]
    simp only [List.foldl_cons, List.length_cons]
    have harith : k + 1 + rest.length = k + (rest.length + 1) := by omega
    rw [harith]

/-- C7 (amended): when the source yields more than `num_samples` samples,
extraction stops after processing the first `num_samples` of them with the
warning logged; this is not a failure provided `check_len` is disabled or
the reported length is at most `num_samples + 1` (as in the production
call, where `num_samples = len(dataloader)`); and when `check_len` is
enabled and the source yields fewer samples than its reported length, the
call fails loudly with an error.  (With `check_len` enabled and a reported
length exceeding `num_samples + 1`, truncation also trips the trailing
length assertion — the original claim's "warning, not a failure" does not
hold there.) -/
theorem extract_axes_shapes_bounds
    (samples : List (List (String × List Nat))) (reportedLen : Nat)
    (names : List String) (ndims : List Nat) (numSamples : Nat) (check_len : Bool) :
    (numSamples < samples.length →
      (check_len = false ∨ reportedLen ≤ numSamples + 1) →
      extractAxesShapes samples reportedLen names ndims numSamples check_len =
        .ok ((samples.take numSamples).foldl appendSample (initAxes names ndims), true)) ∧
    (check_len = true → samples.length < reportedLen →
      ∃ msg, extractAxesShapes samples reportedLen names ndims numSamples check_len =
        .error msg) := by
  constructor
  · intro hmore hcl
    have hloop := extractLoop_trunc numSamples samples 0 (initAxes names ndims)
      (Nat.zero_le _) (by omega)
    rw [Nat.sub_zero] at hloop
    rw [extractAxesShapes, hloop]
    cases check_len with
    | false => rfl
    | true =>
      have hle : reportedLen ≤ numSamples + 1 := by
        rcases hcl with h | h
        · cases h
        · exact h
      cases samples with
      | nil => simp at hmore
      | cons s rest =>
        simp only [List.isEmpty_cons, if_true, Bool.false_eq_true, if_false]
        rw [if_pos hle]
  · intro hcl hfewer
    subst hcl
    cases samples with
    | nil => exact ⟨_, rfl⟩
    | cons s rest =>
      rw [extractAxesShapes]
      by_cases htr : numSamples < (s :: rest).length
      · have hloop := extractLoop_trunc numSamples (s :: rest) 0 (initAxes names ndims)
          (Nat.zero_le _) (by omega)
        rw [Nat.sub_zero] at hloop
        rw [hloop]
        have hgt : ¬ reportedLen ≤ numSamples + 1 := by
          simp only [List.length_cons] at htr hfewer
          omega
        simp only [List.isEmpty_cons, if_true, Bool.false_eq_true, if_false]
        rw [if_neg hgt]
        exact ⟨_, rfl⟩
      · have hloop := extractLoop_all numSamples (s :: rest) 0 (initAxes names ndims)
          (by omega)
        rw [hloop]
        have hgt : ¬ reportedLen ≤ 0 + (s :: rest).length := by omega
        simp only [List.isEmpty_cons, if_true, Bool.false_eq_true, if_false]
        rw [if_neg hgt]
        exact ⟨_, rfl⟩

/-- C7 counterexample: a dataloader that yields 3 samples while reporting
length 3, read with `num_samples = 1` and `check_len` enabled: the loop
stops at 1 with the warning, but the trailing assertion `i + 1 >=
len(dataloader)` (2 >= 3) then fails — a failure, not just a logged
warning as the claim states for every target sample count. -/
theorem extract_axes_shapes_counterexample :
    1 < ([[("x", [1])], [("x", [1])], [("x", [1])]] : List (List (String × List Nat))).length ∧
    extractAxesShapes [[("x", [1])], [("x", [1])], [("x", [1])]] 3 ["x"] [1] 1 true =
      .error "AssertionError: dataloader length mismatch" :=
  ⟨by simp, rfl⟩

/-- Witness for C7: truncation at 1 of 3 samples without `check_len`
succeeds with the warning flag; one sample against reported length 2 with
`check_len` fails loudly. -/
theorem extract_axes_shapes_bounds_witness :
    extractAxesShapes [[("x", [1])], [("x", [1])], [("x", [1])]] 3 ["x"] [1] 1 false =
      .ok ((([[("x", [1])], [("x", [1])], [("x", [1])]] :
        List (List (String × List Nat))).take 1).foldl appendSample (initAxes ["x"] [1]),
        true) ∧
    (∃ msg, extractAxesShapes [[("x", [1])]] 2 ["x"] [1] 5 true = .error msg) := by
  constructor
  · exact (extract_axes_shapes_bounds [[("x", [1])], [("x", [1])], [("x", [1])]]
      3 ["x"] [1] 1 false).1 (by simp) (Or.inl rfl)
  · exact (extract_axes_shapes_bounds [[("x", [1])]] 2 ["x"] [1] 5 true).2 rfl (by simp)

/-! ### TensorFlow pipeline construction (`pipeline_manager_tf.py`) -/

/-- The model formats `TFPipelineManager._get_pipeline` consults. -/
inductive Fmt
  | tf_savedmodel
  | tf_trt
  | onnx
  | tensorrt
deriving DecidableEq, Repr

/-- The command classes `_get_pipeline` instantiates, identified by class
plus constructor parameters (target format, precision, runtime provider);
each identity is instantiated at most once per pipeline, so `requires`
edges can reference commands by it. -/
inductive CmdKind
  | InferInputMetadata
  | FetchInputModelData
  | InferOutputMetadata
  | DumpInputModelData
  | DumpOutputModelData
  | ExportTF2SavedModel
  | LoadMetadata
  | LoadSamples
  | ConvertSavedModel2ONNX
  | ConvertONNX2TRT (prec : String)
  | ConvertSavedModel2TFTRT (prec : String)
  | CorrectnessSavedModel (fmt : Fmt) (prec : Option String)
  | PerformanceSavedModel (fmt : Fmt) (prec : Option String)
  | CorrectnessTensorFlow2ONNX (prov : String)
  | PerformanceONNX (prov : String)
  | CorrectnessTensorFlow2TRT (prec : String)
  | PerformanceTRT (prec : String)
  | ConfigCli (fmt : Fmt) (prec : Option String)
deriving DecidableEq, Repr

/-- A constructed command: its identity and its declared `requires` tuple. -/
structure TFCmd where
  kind : CmdKind
  requires : List CmdKind
deriving DecidableEq, Repr

/-- The configuration fields `TFPipelineManager._get_pipeline` reads. -/
structure TFConfig where
  from_source : Bool
  target_formats : List Fmt
  onnx_runtimes : List String
  target_precisions : List String

/-- The ONNX conversion block: `ConvertSavedModel2ONNX(requires=
preprocess_req)` plus per-provider correctness/performance commands and the
ONNX `ConfigCli` — appended verbatim in the ONNX branch, and again in the
TensorRT branch when ONNX is not a requested target. -/
def onnxBlockTF (runtimes : List String) (req : List CmdKind) : List TFCmd :=
  ⟨.ConvertSavedModel2ONNX, req⟩ ::
    (runtimes.bind fun prov =>
      [⟨.CorrectnessTensorFlow2ONNX prov, [.ConvertSavedModel2ONNX]⟩,
       ⟨.PerformanceONNX prov, [.ConvertSavedModel2ONNX]⟩]) ++
    [⟨.ConfigCli .onnx none, [.ConvertSavedModel2ONNX]⟩]

/-- `preprocess_req`: the commands later conversions require, depending on
`config.from_source`. -/
def tfPreprocessReq (cfg : TFConfig) : List CmdKind :=
  if cfg.from_source then [.ExportTF2SavedModel] else [.LoadMetadata, .LoadSamples]

/-- The commands appended before any target-format branch: the
`from_source` preamble (metadata inference, dumps, SavedModel export and
its correctness/performance/config commands) or the load commands. -/
def tfBase (cfg : TFConfig) : List TFCmd :=
  if cfg.from_source then
    [⟨.InferInputMetadata, []⟩,
     ⟨.FetchInputModelData, [.InferInputMetadata]⟩,
     ⟨.InferOutputMetadata, [.InferInputMetadata, .FetchInputModelData]⟩,
     ⟨.DumpInputModelData, [.InferInputMetadata, .FetchInputModelData]⟩,
     ⟨.DumpOutputModelData, [.FetchInputModelData, .InferOutputMetadata]⟩,
     ⟨.ExportTF2SavedModel,
      [.InferInputMetadata, .FetchInputModelData, .InferOutputMetadata]⟩,
     ⟨.CorrectnessSavedModel .tf_savedmodel none, [.ExportTF2SavedModel]⟩,
     ⟨.PerformanceSavedModel .tf_savedmodel none, [.ExportTF2SavedModel]⟩,
     ⟨.ConfigCli .tf_savedmodel none, [.ExportTF2SavedModel]⟩]
  else
    [⟨.LoadMetadata, []⟩, ⟨.LoadSamples, [.LoadMetadata]⟩]

/-- The `Format.ONNX in config.target_formats` branch. -/
def tfOnnxPart (cfg : TFConfig) : List TFCmd :=
  if Fmt.onnx ∈ cfg.target_formats then
    onnxBlockTF cfg.onnx_runtimes (tfPreprocessReq cfg)
  else []

/-- One per-precision quadruple of the TensorRT branch. -/
def tfTrtQuad (prec : String) : List TFCmd :=
  [⟨.ConvertONNX2TRT prec, [.ConvertSavedModel2ONNX]⟩,
   ⟨.CorrectnessTensorFlow2TRT prec, [.ConvertONNX2TRT prec]⟩,
   ⟨.PerformanceTRT prec, [.ConvertONNX2TRT prec]⟩,
   ⟨.ConfigCli .tensorrt (some prec), [.ConvertONNX2TRT prec]⟩]

/-- The `Format.TENSORRT in config.target_formats` branch: when ONNX was
not itself requested the ONNX block is inserted first, then one quadruple
per target precision. -/
def tfTrtPart (cfg : TFConfig) : List TFCmd :=
  if Fmt.tensorrt ∈ cfg.target_formats then
    (if Fmt.onnx ∈ cfg.target_formats then []
     else onnxBlockTF cfg.onnx_runtimes (tfPreprocessReq cfg)) ++
      cfg.target_precisions.bind tfTrtQuad
  else []

/-- One per-precision quadruple of the TF-TRT branch. -/
def tfTftrtQuad (pre : List CmdKind) (prec : String) : List TFCmd :=
  [⟨.ConvertSavedModel2TFTRT prec, pre⟩,
   ⟨.CorrectnessSavedModel .tf_trt (some prec), [.ConvertSavedModel2TFTRT prec]⟩,
   ⟨.PerformanceSavedModel .tf_trt (some prec), [.ConvertSavedModel2TFTRT prec]⟩,
   ⟨.ConfigCli .tf_trt (some prec), [.ConvertSavedModel2TFTRT prec]⟩]

/-- The `Format.TF_TRT in config.target_formats` branch. -/
def tfTftrtPart (cfg : TFConfig) : List TFCmd :=
  if Fmt.tf_trt ∈ cfg.target_formats then
    cfg.target_precisions.bind (tfTftrtQuad (tfPreprocessReq cfg))
  else []

/-- `TFPipelineManager._get_pipeline(config)`: the command list of the
returned TensorFlow 2 pipeline, in append order. -/
def tfGetPipeline (cfg : TFConfig) : List TFCmd :=
  tfBase cfg ++ tfOnnxPart cfg ++ tfTrtPart cfg ++ tfTftrtPart cfg

theorem onnxBlockTF_count (runtimes : List String) (req : List CmdKind) :
    (onnxBlockTF runtimes req).countP
      (fun c => c.kind == CmdKind.ConvertSavedModel2ONNX) = 1 := by
  have h0 : (runtimes.bind fun prov =>
      [(⟨CmdKind.CorrectnessTensorFlow2ONNX prov, [CmdKind.ConvertSavedModel2ONNX]⟩ : TFCmd),
       ⟨CmdKind.PerformanceONNX prov, [CmdKind.ConvertSavedModel2ONNX]⟩]).countP
        (fun c => c.kind == CmdKind.ConvertSavedModel2ONNX) = 0 := by
    rw [List.countP_eq_zero]
    intro c hc
    obtain ⟨prov, _, hcm⟩ := List.mem_bind.mp hc
    simp only [List.mem_cons, List.mem_singleton, List.not_mem_nil, or_false] at hcm
    rcases hcm with rfl | rfl <;> simp
  rw [onnxBlockTF, List.countP_append, List.countP_cons_of_pos _ _ (by simp), h0]
  rfl

theorem onnxBlockTF_trt_requires (runtimes : List String) (req : List CmdKind) :
    ∀ c ∈ onnxBlockTF runtimes req, ∀ prec, c.kind = CmdKind.ConvertONNX2TRT prec →
      c.requires = [CmdKind.ConvertSavedModel2ONNX] := by
  intro c hc prec hk
  rw [onnxBlockTF] at hc
  rcases List.mem_append.mp hc with hc1 | hc4
  · rcases List.mem_cons.mp hc1 with rfl | hc3
    · cases hk
    · obtain ⟨prov, _, hcm⟩ := List.mem_bind.mp hc3
      simp only [List.mem_cons, List.mem_singleton, List.not_mem_nil, or_false] at hcm
      rcases hcm with rfl | rfl <;> cases hk
  · simp only [List.mem_singleton] at hc4
    subst hc4
    cases hk

theorem tfBase_count (cfg : TFConfig) :
    (tfBase cfg).countP (fun c => c.kind == CmdKind.ConvertSavedModel2ONNX) = 0 := by
  rw [tfBase]
  cases cfg.from_source
  · rfl
  · rfl

theorem trtQuadBind_count (precs : List String) :
    (precs.bind tfTrtQuad).countP
      (fun c => c.kind == CmdKind.ConvertSavedModel2ONNX) = 0 := by
  rw [List.countP_eq_zero]
  intro c hc
  obtain ⟨prec, _, hcm⟩ := List.mem_bind.mp hc
  rw [tfTrtQuad] at hcm
  simp only [List.mem_cons, List.mem_singleton, List.not_mem_nil, or_false] at hcm
  rcases hcm with rfl | rfl | rfl | rfl <;> simp

theorem tfTftrtPart_count (cfg : TFConfig) :
    (tfTftrtPart cfg).countP (fun c => c.kind == CmdKind.ConvertSavedModel2ONNX) = 0 := by
  rw [tfTftrtPart]
  by_cases h : Fmt.tf_trt ∈ cfg.target_formats
  · rw [if_pos h, List.countP_eq_zero]
    intro c hc
    obtain ⟨prec, _, hcm⟩ := List.mem_bind.mp hc
    rw [tfTftrtQuad] at hcm
    simp only [List.mem_cons, List.mem_singleton, List.not_mem_nil, or_false] at hcm
    rcases hcm with rfl | rfl | rfl | rfl <;> simp
  · rw [if_neg h]
    rfl

theorem tfBase_no_trt_convert (cfg : TFConfig) :
    ∀ c ∈ tfBase cfg, ∀ prec, c.kind = CmdKind.ConvertONNX2TRT prec →
      c.requires = [CmdKind.ConvertSavedModel2ONNX] := by
  intro c hc prec hk
  rw [tfBase] at hc
  cases hs : cfg.from_source
  · rw [hs, if_neg (show ¬(false = true) by decide)] at hc
    simp only [List.mem_cons, List.not_mem_nil, or_false] at hc
    rcases hc with rfl | rfl <;> cases hk
  · rw [hs, if_pos rfl] at hc
    simp only [List.mem_cons, List.not_mem_nil, or_false] at hc
    rcases hc with rfl | rfl | rfl | rfl | rfl | rfl | rfl | rfl | rfl <;> cases hk

theorem tfTrtQuad_requires (prec0 : String) :
    ∀ c ∈ tfTrtQuad prec0, ∀ prec, c.kind = CmdKind.ConvertONNX2TRT prec →
      c.requires = [CmdKind.ConvertSavedModel2ONNX] := by
  intro c hc prec hk
  rw [tfTrtQuad] at hc
  simp only [List.mem_cons, List.mem_singleton, List.not_mem_nil, or_false] at hc
  rcases hc with rfl | rfl | rfl | rfl
  · rfl
  · cases hk
  · cases hk
  · cases hk

theorem tfTftrtQuad_no_trt_convert (pre : List CmdKind) (prec0 : String) :
    ∀ c ∈ tfTftrtQuad pre prec0, ∀ prec, c.kind = CmdKind.ConvertONNX2TRT prec →
      c.requires = [CmdKind.ConvertSavedModel2ONNX] := by
  intro c hc prec hk
  rw [tfTftrtQuad] at hc
  simp only [List.mem_cons, List.mem_singleton, List.not_mem_nil, or_false] at hc
  rcases hc with rfl | rfl | rfl | rfl <;> cases hk

/-- C8: whenever TensorRT is among the requested target formats, the built
TensorFlow command list contains a `ConvertSavedModel2ONNX` command — even
when ONNX itself was not requested — it contains exactly one such command
(no duplicate when ONNX is also requested), and every `ConvertONNX2TRT`
command requires exactly that ONNX conversion. -/
theorem tf_pipeline_onnx_conversion (cfg : TFConfig)
    (ht : Fmt.tensorrt ∈ cfg.target_formats) :
    (∃ c ∈ tfGetPipeline cfg, c.kind = CmdKind.ConvertSavedModel2ONNX) ∧
    (tfGetPipeline cfg).countP (fun c => c.kind == CmdKind.ConvertSavedModel2ONNX) = 1 ∧
    (∀ c ∈ tfGetPipeline cfg, ∀ prec, c.kind = CmdKind.ConvertONNX2TRT prec →
      c.requires = [CmdKind.ConvertSavedModel2ONNX]) := by
  have hcnt : (tfGetPipeline cfg).countP
      (fun c => c.kind == CmdKind.ConvertSavedModel2ONNX) = 1 := by
    rw [tfGetPipeline, List.countP_append, List.countP_append, List.countP_append,
      tfBase_count, tfTftrtPart_count]
    by_cases honnx : Fmt.onnx ∈ cfg.target_formats
    · rw [tfOnnxPart, if_pos honnx, onnxBlockTF_count, tfTrtPart, if_pos ht, if_pos honnx,
        List.nil_append, trtQuadBind_count]
    · rw [tfOnnxPart, if_neg honnx, tfTrtPart, if_pos ht, if_neg honnx,
        List.countP_append, onnxBlockTF_count, trtQuadBind_count, List.countP_nil]
  refine ⟨?_, hcnt, ?_⟩
  · have hpos : 0 < (tfGetPipeline cfg).countP
        (fun c => c.kind == CmdKind.ConvertSavedModel2ONNX) := by
      rw [hcnt]
      exact Nat.zero_lt_one
    obtain ⟨c, hc, hcp⟩ := List.countP_pos.mp hpos
    exact ⟨c, hc, by simpa using hcp⟩
  · intro c hc prec hk
    rw [tfGetPipeline] at hc
    rcases List.mem_append.mp hc with hc1 | hc2
    · rcases List.mem_append.mp hc1 with hc3 | hc4
      · rcases List.mem_append.mp hc3 with hc5 | hc6
        · exact tfBase_no_trt_convert cfg c hc5 prec hk
        · rw [tfOnnxPart] at hc6
          by_cases honnx : Fmt.onnx ∈ cfg.target_formats
          · rw [if_pos honnx] at hc6
            exact onnxBlockTF_trt_requires _ _ c hc6 prec hk
          · rw [if_neg honnx] at hc6
            cases hc6
      · rw [tfTrtPart, if_pos ht] at hc4
        rcases List.mem_append.mp hc4 with hc5 | hc6
        · by_cases honnx : Fmt.onnx ∈ cfg.target_formats
          · rw [if_pos honnx] at hc5
            cases hc5
          · rw [if_neg honnx] at hc5
            exact onnxBlockTF_trt_requires _ _ c hc5 prec hk
        · obtain ⟨prec0, _, hcm⟩ := List.mem_bind.mp hc6
          exact tfTrtQuad_requires prec0 c hcm prec hk
    · rw [tfTftrtPart] at hc2
      by_cases htf : Fmt.tf_trt ∈ cfg.target_formats
      · rw [if_pos htf] at hc2
        obtain ⟨prec0, _, hcm⟩ := List.mem_bind.mp hc2
        exact tfTftrtQuad_no_trt_convert _ prec0 c hcm prec hk
      · rw [if_neg htf] at hc2
        cases hc2

/-- Witness for C8: TensorRT requested without ONNX, one runtime, one
precision — the pipeline holds exactly one `ConvertSavedModel2ONNX`. -/
theorem tf_pipeline_onnx_conversion_witness :
    (∃ c ∈ tfGetPipeline ⟨true, [Fmt.tensorrt], ["cpu"], ["fp16"]⟩,
      c.kind = CmdKind.ConvertSavedModel2ONNX) ∧
    (tfGetPipeline ⟨true, [Fmt.tensorrt], ["cpu"], ["fp16"]⟩).countP
      (fun c => c.kind == CmdKind.ConvertSavedModel2ONNX) = 1 ∧
    (∀ c ∈ tfGetPipeline ⟨true, [Fmt.tensorrt], ["cpu"], ["fp16"]⟩,
      ∀ prec, c.kind = CmdKind.ConvertONNX2TRT prec →
        c.requires = [CmdKind.ConvertSavedModel2ONNX]) :=
  tf_pipeline_onnx_conversion ⟨true, [Fmt.tensorrt], ["cpu"], ["fp16"]⟩ (by simp)

/-! ### Pipeline execution (`framework_api/pipelines/pipeline.py`) -/

/-- The framework_api `CommandStatus` values. -/
inductive CommandStatus
  | OK
  | FAIL
  | SKIPPED
  | NOOP
deriving DecidableEq, Repr

/-- A command as the pipeline loop sees it.  `requires` holds positions of
earlier commands in the pipeline's command list (the Python objects hold
direct references; identity is by position here); `runStatus`/`runOutput`
is the result `transform` produces when every required command reached OK. -/
structure PCommand where
  name : String
  requires : List Nat
  is_required : Bool
  output_name : Option String
  runStatus : CommandStatus
  runOutput : Option String
deriving DecidableEq, Repr

/-- Modelled from the spec: `Command.transform`
(`framework_api/commands/core.py` is not part of this excerpt; only the
loop in `pipeline.py` is).  Spec section 4.4: a command transitions to
SKIPPED if a required upstream command did not reach OK and the command is
not `is_required`; an `is_required` command whose dependency failed makes
the run FAIL; otherwise the command executes and yields its own result. -/
def transformCmd (statuses : List CommandStatus) (c : PCommand) :
    CommandStatus × Option String :=
  if c.requires.all fun i => statuses.getD i CommandStatus.OK == CommandStatus.OK then
    (c.runStatus, c.runOutput)
  else if c.is_required then (CommandStatus.FAIL, none)
  else (CommandStatus.SKIPPED, none)

/-- `additional_params[key] = value`: Python dict assignment — overwrite in
place when the key exists, else append. -/
def dictSet (m : List (String × Option String)) (k : String) (v : Option String) :
    List (String × Option String) :=
  if k ∈ m.map Prod.fst then assocSet m k v else m ++ [(k, v)]

/-- One iteration of the loop in `Pipeline.__call__`: call
`command.transform(...)`, then — unconditionally on the status — store
`results.output` in `additional_params` under the command's output name
when it declares one.  The state is (statuses so far, additional_params). -/
def pipeStep (st : List CommandStatus × List (String × Option String)) (c : PCommand) :
    List CommandStatus × List (String × Option String) :=
  let r := transformCmd st.1 c
  (st.1 ++ [r.1],
   match c.output_name with
   | some k => dictSet st.2 k r.2
   | none => st.2)

/-- The loop of `Pipeline.__call__`, recording for every command its
resulting status and the namespace (`additional_params`) it received. -/
def runPipelineFrom (st : List CommandStatus × List (String × Option String)) :
    List PCommand → List (CommandStatus × List (String × Option String))
  | [] => []
  | c :: rest => ((transformCmd st.1 c).1, st.2) :: runPipelineFrom (pipeStep st c) rest

/-- `Pipeline.__call__` on a fresh run: empty statuses and namespace. -/
def runPipeline (cmds : List PCommand) :
    List (CommandStatus × List (String × Option String)) :=
  runPipelineFrom ([], []) cmds

theorem getD_append_right_own {α : Type} :
    ∀ (l1 l2 : List α) (n : Nat) (d : α), l1.length ≤ n →
      (l1 ++ l2).getD n d = l2.getD (n - l1.length) d := by
  intro l1
  induction l1 with
  | nil => intro l2 n d _; simp
  | cons a as ih =>
    intro l2 n d h
    cases n with
    | zero => simp at h
    | succ m =>
      have hm : as.length ≤ m := by
        simp only [List.length_cons] at h
        omega
      rw [List.cons_append, List.getD_cons_succ, ih l2 m d hm, List.length_cons,
        Nat.succ_sub_succ]

theorem runPipelineFrom_length :
    ∀ (cmds : List PCommand) (st), (runPipelineFrom st cmds).length = cmds.length := by
  intro cmds
  induction cmds with
  | nil => intro st; rfl
  | cons c rest ih =>
    intro st
    simp only [runPipelineFrom, List.length_cons, ih]

theorem runPipelineFrom_append :
    ∀ (xs ys : List PCommand) (st),
      runPipelineFrom st (xs ++ ys) =
        runPipelineFrom st xs ++ runPipelineFrom (xs.foldl pipeStep st) ys := by
  intro xs
  induction xs with
  | nil => intro ys st; rfl
  | cons c rest ih =>
    intro ys st
    simp only [List.cons_append, runPipelineFrom, List.foldl_cons, List.append_eq, ih]

theorem foldl_pipeStep_statuses :
    ∀ (cmds : List PCommand) (st),
      (cmds.foldl pipeStep st).1 = st.1 ++ (runPipelineFrom st cmds).map Prod.fst := by
  intro cmds
  induction cmds with
  | nil => intro st; simp [runPipelineFrom]
  | cons c rest ih =>
    intro st
    rw [List.foldl_cons, ih]
    simp only [runPipelineFrom, List.map_cons]
    simp [pipeStep, List.append_assoc]

theorem dictSet_key_mem (m : List (String × Option String)) (k k' : String)
    (v : Option String) (h : k' ∈ m.map Prod.fst ∨ k' = k) :
    k' ∈ (dictSet m k v).map Prod.fst := by
  rw [dictSet]
  by_cases hmem : k ∈ m.map Prod.fst
  · rw [if_pos hmem, assocSet_keys]
    rcases h with h | h
    · exact h
    · exact h ▸ hmem
  · rw [if_neg hmem, List.map_append]
    rcases h with h | h
    · exact List.mem_append.mpr (Or.inl h)
    · exact List.mem_append.mpr (Or.inr (by simp [h]))

theorem pipeStep_key_mem (st : List CommandStatus × List (String × Option String))
    (c : PCommand) (k : String) (h : k ∈ st.2.map Prod.fst) :
    k ∈ (pipeStep st c).2.map Prod.fst := by
  cases ho : c.output_name with
  | none => simpa [pipeStep, ho] using h
  | some k0 =>
    simp only [pipeStep, ho]
    exact dictSet_key_mem _ _ _ _ (Or.inl h)

theorem runPipelineFrom_key_mem :
    ∀ (cmds : List PCommand) (st) (k : String),
      k ∈ st.2.map Prod.fst →
      ∀ e ∈ runPipelineFrom st cmds, k ∈ e.2.map Prod.fst := by
  intro cmds
  induction cmds with
  | nil => intro st k _ e he; cases he
  | cons c rest ih =>
    intro st k hk e he
    rcases List.mem_cons.mp he with rfl | he2
    · simpa using hk
    · exact ih (pipeStep st c) k (pipeStep_key_mem st c k hk) e he2

/-- C3 (amended): in a run of `pre ++ [c] ++ post`, a command `c` that is
not `is_required` and has a required upstream that finished FAIL ends with
status SKIPPED; but the loop in `pipeline.py` stores `results.output` under
the declared output name unconditionally, so the declared key is PRESENT
(not absent) in the namespace every later command receives — bound to the
skipped command's empty output unless a later producer overwrites it. -/
theorem pipeline_skipped_output_key
    (pre post : List PCommand) (c : PCommand) (r : Nat) (k : String)
    (hr : r ∈ c.requires)
    (hfail : ((runPipeline pre).map Prod.fst).getD r CommandStatus.OK = CommandStatus.FAIL)
    (hnr : c.is_required = false)
    (hk : c.output_name = some k) :
    ((runPipeline (pre ++ c :: post)).getD pre.length
      (CommandStatus.OK, [])).1 = CommandStatus.SKIPPED ∧
    ∀ j, pre.length < j → j < (pre ++ c :: post).length →
      k ∈ ((runPipeline (pre ++ c :: post)).getD j
        (CommandStatus.OK, [])).2.map Prod.fst := by
  have hsplit := runPipelineFrom_append pre (c :: post) ([], [])
  have hlen : (runPipelineFrom (([], []) :
      List CommandStatus × List (String × Option String)) pre).length = pre.length :=
    runPipelineFrom_length pre ([], [])
  have hst : (pre.foldl pipeStep ([], [])).1 = (runPipeline pre).map Prod.fst := by
    rw [foldl_pipeStep_statuses]
    rfl
  have htrans : transformCmd (pre.foldl pipeStep ([], [])).1 c =
      (CommandStatus.SKIPPED, none) := by
    have hall : (c.requires.all fun i =>
        (pre.foldl pipeStep ([], [])).1.getD i CommandStatus.OK == CommandStatus.OK)
          = false := by
      cases hall0 : (c.requires.all fun i =>
          (pre.foldl pipeStep ([], [])).1.getD i CommandStatus.OK == CommandStatus.OK)
      · rfl
      · exfalso
        have hp := List.all_eq_true.mp hall0 r hr
        rw [hst, hfail] at hp
        exact absurd hp (by decide)
    rw [transformCmd, hall, hnr]
    rfl
  constructor
  · rw [runPipeline, hsplit, getD_append_right_own _ _ _ _ hlen.le]
    rw [hlen, Nat.sub_self, runPipelineFrom, List.getD_cons_zero]
    show (transformCmd (pre.foldl pipeStep ([], [])).1 c).1 = CommandStatus.SKIPPED
    rw [htrans]
  · intro j hj1 hj2
    rw [runPipeline, hsplit]
    have hgej : (runPipelineFrom (([], []) :
        List CommandStatus × List (String × Option String)) pre).length ≤ j := by
      rw [hlen]
      omega
    rw [getD_append_right_own _ _ _ _ hgej]
    have hidx : j - (runPipelineFrom (([], []) :
        List CommandStatus × List (String × Option String)) pre).length =
        (j - pre.length - 1) + 1 := by
      rw [hlen]
      omega
    rw [hidx, runPipelineFrom, List.getD_cons_succ]
    have hkey : k ∈ (pipeStep (pre.foldl pipeStep ([], [])) c).2.map Prod.fst := by
      simp only [pipeStep, hk]
      exact dictSet_key_mem _ _ _ _ (Or.inr rfl)
    have hlt : j - pre.length - 1 < post.length := by
      rw [List.length_append, List.length_cons] at hj2
      omega
    have hmem : (runPipelineFrom (pipeStep (pre.foldl pipeStep ([], [])) c) post).getD
        (j - pre.length - 1) (CommandStatus.OK, []) ∈
        runPipelineFrom (pipeStep (pre.foldl pipeStep ([], [])) c) post := by
      rw [List.getD_eq_getElem _ _ (by rw [runPipelineFrom_length]; exact hlt)]
      exact List.getElem_mem _
    exact runPipelineFrom_key_mem post _ k hkey _ hmem

/-- The failing first command of the pipeline counterexample. -/
def cmdA : PCommand := ⟨"A", [], true, none, CommandStatus.FAIL, none⟩

/-- The dependent command: requires `cmdA` (position 0), not required,
declares output key "b". -/
def cmdB : PCommand := ⟨"B", [0], false, some "b", CommandStatus.OK, some "artifact"⟩

/-- A later command observing the accumulated namespace. -/
def cmdC : PCommand := ⟨"C", [], false, none, CommandStatus.OK, none⟩

/-- C3 counterexample: in the run `[A, B, C]` where A fails, B (not
required, requiring A, declaring output "b") is SKIPPED — but the loop
stores `results.output` regardless of the status, so C receives a
namespace in which the key "b" IS present (bound to None), contradicting
the claim that the key is absent. -/
theorem pipeline_skipped_output_key_counterexample :
    ((runPipeline [cmdA, cmdB, cmdC]).getD 1 (CommandStatus.OK, [])).1 =
      CommandStatus.SKIPPED ∧
    "b" ∈ ((runPipeline [cmdA, cmdB, cmdC]).getD 2 (CommandStatus.OK, [])).2.map Prod.fst :=
  ⟨rfl, by decide⟩

/-- Witness for C3 at the three-command pipeline. -/
theorem pipeline_skipped_output_key_witness :
    (((runPipeline ([cmdA] ++ cmdB :: [cmdC])).getD 1
      (CommandStatus.OK, [])).1 = CommandStatus.SKIPPED) ∧
    ∀ j, 1 < j → j < ([cmdA] ++ cmdB :: [cmdC]).length →
      "b" ∈ ((runPipeline ([cmdA] ++ cmdB :: [cmdC])).getD j
        (CommandStatus.OK, [])).2.map Prod.fst := by
  have h := pipeline_skipped_output_key [cmdA] [cmdC] cmdB 0 "b"
    (by decide) (by decide) rfl rfl
  exact ⟨h.1, h.2⟩

end MN
